import Mathlib

/-!
Verification of the template-filling core of the `enquiry-app` repository
(`src/automation_script/excel_ops.py`): key normalization, field matching
against a synonym table, template-layout detection, and the vertical and
multi-column template fillers.

Modelling conventions of this shallow embedding:
* Python strings are `List Char` (`Str`); `str.lower` is modelled on the
  ASCII range (the only range the program's labels and keys use).
* Python cell values are the inductive `PyVal` (`None`, `str`, `int`,
  `list`, `dict`); Python truthiness is `pyTruthy`, `str()` is `pyStr`.
* Python dicts are association lists in insertion order; assignment to an
  existing key updates it in place, a new key is appended — exactly the
  CPython 3.7+ ordering contract the source relies on.
* An openpyxl worksheet is a total cell function plus its `max_row` and
  `max_column` bounds; `ws.cell(..., value=...)` is a functional update.
  (openpyxl's incidental growth of the bounds on out-of-range reads is not
  modelled; all claims concern reads and writes inside the bounds.)
* Inputs on which the Python code would raise (`systems` bound to a
  non-list truthy value, a non-dict element where `.get`/`.items()` is
  called) are mapped to benign defaults by `asList`/`asDict`; every claim
  below stays inside the non-raising domain.
-/

abbrev Str := List Char

/-- ASCII model of Python `str.lower`, applied character by character. -/
def lowerChar (c : Char) : Char :=
  match c with
  | 'A' => 'a' | 'B' => 'b' | 'C' => 'c' | 'D' => 'd' | 'E' => 'e' | 'F' => 'f'
  | 'G' => 'g' | 'H' => 'h' | 'I' => 'i' | 'J' => 'j' | 'K' => 'k' | 'L' => 'l'
  | 'M' => 'm' | 'N' => 'n' | 'O' => 'o' | 'P' => 'p' | 'Q' => 'q' | 'R' => 'r'
  | 'S' => 's' | 'T' => 't' | 'U' => 'u' | 'V' => 'v' | 'W' => 'w' | 'X' => 'x'
  | 'Y' => 'y' | 'Z' => 'z'
  | c => c

/-- Character step of Python `.replace("_", " ")`. -/
def replUnderChar (c : Char) : Char := if c = '_' then ' ' else c

/-- Character step of Python `.replace("-", " ")`. -/
def replHyphenChar (c : Char) : Char := if c = '-' then ' ' else c

/-- Python `str.strip` whitespace class: space, `\t`, `\n`, `\v`, `\f`, `\r`. -/
def isPySpace (c : Char) : Bool := c.toNat = 32 || (9 ≤ c.toNat && c.toNat ≤ 13)

/-- Python `str.strip`: drop leading and trailing whitespace. -/
def pyStrip (s : Str) : Str :=
  ((s.dropWhile isPySpace).reverse.dropWhile isPySpace).reverse

/-- Source `normalize_key`: `key.lower().replace("_", " ").replace("-", " ").strip()`. -/
def normalize_key (key : Str) : Str :=
  pyStrip (((key.map lowerChar).map replUnderChar).map replHyphenChar)

/-- Python substring test `needle in hay` (contiguous; the empty string is in everything). -/
def isSubstrOf (needle : Str) : Str → Bool
  | [] => needle.isEmpty
  | hay@(_ :: t) => needle.isPrefixOf hay || isSubstrOf needle t

/-- Python cell / JSON values as the source manipulates them. -/
inductive PyVal where
  | none : PyVal
  | str : Str → PyVal
  | int : Int → PyVal
  | list : List PyVal → PyVal
  | dict : List (Str × PyVal) → PyVal

mutual
/-- Structural equality on `PyVal`, the equality Python dict keys use here. -/
def pyBeq : PyVal → PyVal → Bool
  | .none, .none => true
  | .str a, .str b => a == b
  | .int a, .int b => a == b
  | .list a, .list b => pyBeqList a b
  | .dict a, .dict b => pyBeqDict a b
  | _, _ => false

def pyBeqList : List PyVal → List PyVal → Bool
  | [], [] => true
  | a :: as, b :: bs => pyBeq a b && pyBeqList as bs
  | _, _ => false

def pyBeqDict : List (Str × PyVal) → List (Str × PyVal) → Bool
  | [], [] => true
  | (k, v) :: as, (k', v') :: bs => k == k' && pyBeq v v' && pyBeqDict as bs
  | _, _ => false
end

instance : BEq PyVal := ⟨pyBeq⟩

/-- Python truthiness of a value. -/
def pyTruthy : PyVal → Bool
  | .none => false
  | .str s => !s.isEmpty
  | .int n => n != 0
  | .list l => !l.isEmpty
  | .dict d => !d.isEmpty

/-- Python `sep.join(parts)`. -/
def joinSep (sep : Str) : List Str → Str
  | [] => []
  | [x] => x
  | x :: xs => x ++ sep ++ joinSep sep xs

/-- Decimal rendering of an integer, as Python `str` renders `int`. -/
def intStr (n : Int) : Str := (toString n).toList

mutual
/-- Python `repr`, as used by `str` on containers (string quoting simplified
to plain single quotes; the development only evaluates it on quote-free text). -/
def pyRepr : PyVal → Str
  | .none => "None".toList
  | .str s => '\x27' :: s ++ ['\x27']
  | .int n => intStr n
  | .list xs => '[' :: joinSep ", ".toList (pyReprList xs) ++ [']']
  | .dict d => '\x7b' :: joinSep ", ".toList (pyReprDict d) ++ ['\x7d']

def pyReprList : List PyVal → List Str
  | [] => []
  | v :: vs => pyRepr v :: pyReprList vs

def pyReprDict : List (Str × PyVal) → List Str
  | [] => []
  | (k, v) :: es => (('\x27' :: k ++ ['\x27']) ++ ": ".toList ++ pyRepr v) :: pyReprDict es
end

/-- Python `str(v)`. -/
def pyStr : PyVal → Str
  | .str s => s
  | v => pyRepr v

/-- Tests whether a value is a Python `str` (`isinstance(v, str)`). -/
def isStrVal : PyVal → Bool
  | .str _ => true
  | _ => false

/-- Tests whether a value is a Python `dict` (`isinstance(v, dict)`). -/
def isDictVal : PyVal → Bool
  | .dict _ => true
  | _ => false

/-- Ordered association-list lookup: Python `d[k]` / `k in d` backing
(keys are unique in every dict the code builds, so first match is the match). -/
def alGet? {κ β : Type} [BEq κ] : List (κ × β) → κ → Option β
  | [], _ => Option.none
  | (k', v') :: t, k => if k' == k then some v' else alGet? t k

/-- Python `k in d` on a dict. -/
def alContains {κ β : Type} [BEq κ] (d : List (κ × β)) (k : κ) : Bool :=
  (alGet? d k).isSome

/-- Python `d.get(k, dflt)`. -/
def alGetD {κ β : Type} [BEq κ] (d : List (κ × β)) (k : κ) (dflt : β) : β :=
  match alGet? d k with
  | some v => v
  | Option.none => dflt

/-- Python `d[k] = v`: an existing key keeps its position and takes the new
value, a new key is appended at the end. -/
def alSet {κ β : Type} [BEq κ] : List (κ × β) → κ → β → List (κ × β)
  | [], k, v => [(k, v)]
  | (k', v') :: t, k, v => if k' == k then (k', v) :: t else (k', v') :: alSet t k v

/-- Python dicts with string keys, in insertion order (the `data` mapping). -/
abbrev Assoc := List (Str × PyVal)

/-- Reads a Python list out of a value; the code only reaches this on lists
(a non-list here would raise in Python, outside the modelled domain). -/
def asList : PyVal → List PyVal
  | .list l => l
  | _ => []

/-- Reads a Python dict out of a value; the code only reaches this on dicts
(a non-dict here would raise in Python, outside the modelled domain). -/
def asDict : PyVal → Assoc
  | .dict d => d
  | _ => []

/-- Helper for writing the synonym-table literal below. -/
def fm (p : String) (cs : List String) : Str × List Str := (p.toList, cs.map String.toList)

/-- Source `FIELD_MAPPINGS` dict literal, in the order and with the values
Python's dict-literal semantics produce: a duplicated key keeps its first
position and its last value ("battery type" and "cells in series" are each
written twice in the source; "battery type" ends up with just
`["battery_type"]`, from its second occurrence). -/
def FIELD_MAPPINGS : List (Str × List Str) := [
  fm "project name" ["project_name", "project"],
  fm "engineering consultant" ["engineering_consultant", "consultant"],
  fm "name of the epc" ["epc", "epc_name", "name_of_epc"],
  fm "9com numbers" ["9com_numbers", "equipment_list", "applicable_9com"],
  fm "standards" ["standards", "applicable_standards", "list_of_standards"],
  fm "number of systems" ["number_of_systems", "systems_count"],
  fm "wattage" ["wattage", "load_value", "load", "wattage_load"],
  fm "load value" ["wattage", "load_value", "load"],
  fm "number of sites" ["number_of_sites", "sites_count", "numbers_of_sites"],
  fm "battery type" ["battery_type"],
  fm "battery autonomy" ["battery_autonomy", "autonomy", "required_battery_autonomy"],
  fm "battery capacity" ["battery_capacity", "capacity", "required_battery_capacity"],
  fm "environmental" ["environmental_conditions", "environment"],
  fm "temperature" ["temperature_range", "temperature"],
  fm "support structure" ["support_structure", "structure"],
  fm "specifications" ["other_specifications", "specifications", "other_equipment"],
  fm "other service" ["other_services", "services"],
  fm "solar panels config" ["solar_panels_config", "solar_config"],
  fm "charge controllers config" ["charge_controllers_config", "charge_controller_config"],
  fm "batteries config" ["batteries_config", "battery_config"],
  fm "load-list" ["load_list", "loads"],
  fm "load list" ["load_list", "loads"],
  fm "future expansion" ["future_expansion_factor", "future_expansion"],
  fm "battery back-up" ["battery_backup_time", "backup_time"],
  fm "back-up time" ["battery_backup_time", "backup_time"],
  fm "ageing factor" ["ageing_factor", "aging_factor"],
  fm "design factor" ["design_factor"],
  fm "temperature compensation" ["temperature_compensation"],
  fm "other factor" ["other_battery_factors", "other_factors"],
  fm "computed required battery" ["computed_battery_capacity", "required_battery_capacity"],
  fm "required battery capacity" ["computed_battery_capacity", "required_battery_capacity"],
  fm "end of discharge" ["end_of_discharge_voltage", "eod_voltage"],
  fm "cells in series" ["cells_in_series", "number_of_cells"],
  fm "proposed battery cell" ["proposed_cell_capacity", "proposed_capacity"],
  fm "parallel sets" ["parallel_strings", "number_of_parallel"],
  fm "parallel strings" ["parallel_strings", "number_of_parallel"],
  fm "derating factors" ["derating_factors", "solar_derating"],
  fm "sun hours" ["sun_hours", "effective_sun_hours"],
  fm "future factor" ["solar_future_factor", "future_factor"],
  fm "formula" ["solar_sizing_formula", "sizing_formula"],
  fm "total daily required" ["total_daily_ah", "daily_required_ah"],
  fm "panels in one string" ["solar_panels_per_string", "panels_per_string"],
  fm "parallel solar panels" ["parallel_solar_panels", "parallel_panels"],
  fm "how many solar panels" ["solar_panels_per_string", "panels_per_string"],
  fm "how many parallel" ["parallel_solar_panels", "parallel_panels"],
  fm "junction box" ["array_junction_boxes", "junction_boxes"],
  fm "charge controller type" ["charge_controller_type", "controller_type"],
  fm "mppt or pwm" ["charge_controller_type", "controller_type"],
  fm "hard-wired signals" ["hardwired_signals", "signals_to_rtu"],
  fm "hardwired signals" ["hardwired_signals", "signals_to_rtu"],
  fm "other signals" ["other_signals", "other_alarms"],
  fm "battery breaker box" ["battery_breaker_box", "breaker_box_required"],
  fm "battery breaker boxes" ["num_battery_breaker_boxes", "number_of_breaker_boxes"],
  fm "battery configuration" ["battery_config", "batteries_config"],
  fm "nicd or vrla" ["battery_type"],
  fm "strings of batteries" ["battery_strings", "number_of_strings"],
  fm "how many strings" ["battery_strings", "number_of_strings"],
  fm "enclosure ip" ["battery_enclosure_rating", "enclosure_rating"],
  fm "nema rating" ["battery_enclosure_rating", "enclosure_rating"],
  fm "back-up" ["required_backup", "backup_autonomy"],
  fm "autonomy" ["required_backup", "backup_autonomy"],
  fm "panel board" ["panel_board_required", "los_required"],
  fm "db / los" ["panel_board_required", "los_required"],
  fm "los required" ["panel_board_required", "los_required"],
  fm "enclosure rating of los" ["los_enclosure_rating", "power_panel_rating"],
  fm "power panel" ["los_enclosure_rating", "power_panel_rating"],
  fm "breakers and ratings" ["breaker_list", "number_of_breakers"],
  fm "number of breakers" ["breaker_list", "number_of_breakers"],
  fm "notes for pv" ["pv_notes", "charge_controller_notes"],
  fm "notes for batteries" ["battery_notes", "enclosure_notes"],
  fm "other equipment" ["other_equipment", "additional_equipment"],
  fm "critical points" ["critical_points", "other_notes"]]

/-- First stage of `find_matching_data_key`: the first data key whose
normalized form equals the normalized label (`template_lower`). -/
def exactKeyFind (template_lower : Str) (data_keys : List Str) : Option Str :=
  data_keys.find? (fun key => normalize_key key == template_lower)

/-- Second stage of `find_matching_data_key`: the first data key whose
normalized form is a substring of the normalized label or vice versa. -/
def partialKeyFind (template_lower : Str) (data_keys : List Str) : Option Str :=
  data_keys.find? (fun key =>
    isSubstrOf (normalize_key key) template_lower ||
    isSubstrOf template_lower (normalize_key key))

/-- First result of a function over a list, mirroring a Python
`for`-loop that `return`s on its first hit. -/
def firstSome {α β : Type} (f : α → Option β) : List α → Option β
  | [] => Option.none
  | a :: as =>
    match f a with
    | some b => some b
    | Option.none => firstSome f as

/-- Innermost loop of the synonym-table stage: the first data key whose
normalized form equals the candidate spelling or contains it. -/
def candidateKeyFind (possible_key : Str) (data_keys : List Str) : Option Str :=
  data_keys.find? (fun key =>
    normalize_key key == possible_key || isSubstrOf possible_key (normalize_key key))

/-- Third stage of `find_matching_data_key`: scan `FIELD_MAPPINGS` in
declaration order; for each pattern contained in the normalized label, try
its candidate spellings in order. -/
def mappingsFind (template_lower : Str) (data_keys : List Str) : Option Str :=
  firstSome (fun entry =>
    if isSubstrOf entry.1 template_lower then
      firstSome (fun possible_key => candidateKeyFind possible_key data_keys) entry.2
    else Option.none) FIELD_MAPPINGS

/-- Source `find_matching_data_key`: three matching stages in fixed
priority, first success wins. -/
def find_matching_data_key (template_field : Str) (data_keys : List Str) : Option Str :=
  match exactKeyFind (normalize_key template_field) data_keys with
  | some key => some key
  | Option.none =>
    match partialKeyFind (normalize_key template_field) data_keys with
    | some key => some key
    | Option.none => mappingsFind (normalize_key template_field) data_keys

/-- Worksheet model: a total cell-content function plus the dimension
bounds openpyxl reports. -/
structure Ws where
  cells : Nat → Nat → PyVal
  maxRow : Nat
  maxCol : Nat

/-- Model of `ws.cell(row=r, column=c, value=v)`. -/
def setCell (ws : Ws) (r c : Nat) (v : PyVal) : Ws :=
  { ws with cells := fun r' c' => if r' = r && c' = c then v else ws.cells r' c' }

/-- Header-row probe of `detect_template_format`: column A truthy and its
lowercased text contains "item" or "question", columns B and C truthy
(the source checks `cell_a and cell_b` and then `... and cell_b and cell_c`). -/
def multiHeaderProbe (ws : Ws) (r : Nat) : Bool :=
  let a := ws.cells r 1
  let b := ws.cells r 2
  let c := ws.cells r 3
  pyTruthy a && pyTruthy b &&
    (isSubstrOf "item".toList ((pyStr a).map lowerChar) ||
     isSubstrOf "question".toList ((pyStr a).map lowerChar)) &&
    pyTruthy b && pyTruthy c

/-- Question-label test of `detect_template_format`'s vertical probe:
a truthy string longer than 5 characters containing a question mark. -/
def questionLabel (v : PyVal) : Bool :=
  pyTruthy v && isStrVal v && decide (5 < (pyStr v).length) && isSubstrOf ['?'] (pyStr v)

/-- Number of question-like labels in column A over rows
`range(1, min(25, max_row + 1))` of the source. -/
def questionLabelCount (ws : Ws) : Nat :=
  ((List.range' 1 (min 24 ws.maxRow)).filter (fun r => questionLabel (ws.cells r 1))).length

/-- Source `detect_template_format`: probe rows `range(1, 30)` for a
multi-column header; otherwise count question-like labels and classify
vertical at three or more, else horizontal. -/
def detect_template_format (ws : Ws) : Str × Nat :=
  match (List.range' 1 29).find? (fun r => multiHeaderProbe ws r) with
  | some r => ("multi-column".toList, r)
  | Option.none =>
    if 3 ≤ questionLabelCount ws then ("vertical".toList, 0)
    else ("horizontal".toList, 0)

/-- Python f-string `f"{k}: {v}"` over a dict entry. -/
def formatEntry (kv : Str × PyVal) : Str := kv.1 ++ ": ".toList ++ pyStr kv.2

/-- Value formatting of `fill_vertical_template`: lists of dicts render each
dict as " | "-joined truthy entries and join the renderings with newlines;
other lists join `str` of the elements with ", "; dicts render ", "-joined
truthy entries; every other value passes through unchanged. -/
def format_vertical_value (v : PyVal) : PyVal :=
  match v with
  | .list xs =>
    if xs.all isDictVal then
      .str (joinSep ['\n'] (xs.map (fun x =>
        joinSep " | ".toList (((asDict x).filter (fun kv => pyTruthy kv.2)).map formatEntry))))
    else .str (joinSep ", ".toList (xs.map pyStr))
  | .dict d => .str (joinSep ", ".toList ((d.filter (fun kv => pyTruthy kv.2)).map formatEntry))
  | other => other

/-- Value formatting of `fill_multicolumn_template`: every list joins `str`
of its elements with ", "; dicts render all entries (truthy or not) joined
with ", "; every other value passes through unchanged. -/
def format_multicolumn_value (v : PyVal) : PyVal :=
  match v with
  | .list xs => .str (joinSep ", ".toList (xs.map pyStr))
  | .dict d => .str (joinSep ", ".toList (d.map formatEntry))
  | other => other

/-- Columns scanned for site headers: `range(2, min(20, ws.max_column + 1))`. -/
def siteScanCols (ws : Ws) : List Nat := List.range' 2 (min 20 (ws.maxCol + 1) - 2)

/-- Stripped text of a header cell, `str(header_val).strip()`. -/
def headerText (ws : Ws) (header_row c : Nat) : Str := pyStrip (pyStr (ws.cells header_row c))

/-- Source step `site_columns[str(header_val).strip()] = col_idx` folded over
the scanned columns: a dict keyed by the stripped header text. -/
def siteColumnsOf (ws : Ws) (header_row : Nat) : List (Str × Nat) :=
  (siteScanCols ws).foldl (fun m c =>
    if pyTruthy (ws.cells header_row c) then alSet m (headerText ws header_row c) c else m) []

/-- Source `sorted(site_columns.values())`. -/
def colIndicesOf (ws : Ws) (header_row : Nat) : List Nat :=
  List.insertionSort (· ≤ ·) ((siteColumnsOf ws header_row).map Prod.snd)

/-- Synthesized site name `f"System_{i+1}"` for the i-th system (0-indexed). -/
def synthName (i : Nat) : Str := "System_".toList ++ (toString (i + 1)).toList

/-- One step of the assignment loop: system `is.2` at 0-based index `is.1`
is bound to `col_indices[is.1]` under its `site_name` (default
`System_{is.1+1}`), and that header cell is overwritten with the name;
systems beyond the column count leave the accumulator unchanged. -/
def assignStep (header_row : Nat) (col_indices : List Nat)
    (acc : List (PyVal × Nat) × Ws) (is : Nat × PyVal) : List (PyVal × Nat) × Ws :=
  if is.1 < col_indices.length then
    (alSet acc.1 (alGetD (asDict is.2) "site_name".toList (.str (synthName is.1)))
      (col_indices.getD is.1 0),
     setCell acc.2 header_row (col_indices.getD is.1 0)
       (alGetD (asDict is.2) "site_name".toList (.str (synthName is.1))))
  else acc

/-- Assignment loop of `fill_multicolumn_template`: the i-th system is bound
to the i-th sorted column index under its `site_name` (default
`System_{i+1}`), and that header cell is overwritten with the name. -/
def assignSystems (ws : Ws) (header_row : Nat) (systems : List PyVal)
    (col_indices : List Nat) : List (PyVal × Nat) × Ws :=
  systems.enum.foldl (assignStep header_row col_indices) ([], ws)

/-- Inner loop of the multi-column data-row fill: each system whose
`site_name` (default empty string) is an assigned dict key writes its
formatted value for the matched key into its column. -/
def multiRowFill (systems : List PyVal) (system_to_col : List (PyVal × Nat))
    (matching_key : Str) (r : Nat) (st : Ws × Nat) : Ws × Nat :=
  systems.foldl (fun st system =>
    match alGet? system_to_col (alGetD (asDict system) "site_name".toList (.str [])) with
    | some col =>
      (setCell st.1 r col
        (format_multicolumn_value (alGetD (asDict system) matching_key (.str []))), st.2 + 1)
    | Option.none => st) st

/-- One data row of `fill_multicolumn_template`: skip an empty column-A
label, otherwise match it against the first system's keys and fill. -/
def multiRowStep (systems : List PyVal) (system_to_col : List (PyVal × Nat))
    (data_keys : List Str) (st : Ws × Nat) (r : Nat) : Ws × Nat :=
  if pyTruthy (st.1.cells r 1) then
    match find_matching_data_key (pyStr (st.1.cells r 1)) data_keys with
    | some matching_key => multiRowFill systems system_to_col matching_key r st
    | Option.none => st
  else st

/-- Source `fill_multicolumn_template`, returning the mutated worksheet and
the `filled` count. The source's early `if not systems: return 0` and its
redundant later repeat of the same check both land in the `[]` branch. -/
def fill_multicolumn_template (ws : Ws) (data : Assoc) (header_row : Nat) : Ws × Nat :=
  let systems := asList (alGetD data "systems".toList (.list []))
  if systems.isEmpty then (ws, 0)
  else
    let col_indices := colIndicesOf ws header_row
    let assigned := assignSystems ws header_row systems col_indices
    match systems with
    | [] => (assigned.2, 0)
    | s0 :: _ =>
      let data_keys := (asDict s0).map Prod.fst
      (List.range' (header_row + 1) (ws.maxRow - header_row)).foldl
        (multiRowStep systems assigned.1 data_keys) (assigned.2, 0)

/-- Fold of the reserved `items` list into the derived `equipment_list`
string: dict items render their truthy entries " | "-joined, other items
render as `str`; the renderings are joined with newlines. -/
def itemsFoldStr (items : List PyVal) : Str :=
  joinSep ['\n'] (items.map (fun item =>
    match item with
    | .dict d => joinSep " | ".toList ((d.filter (fun kv => pyTruthy kv.2)).map formatEntry)
    | other => pyStr other))

/-- First normalization pass of `fill_vertical_template`: when `items` is
bound to a list, set `equipment_list` to the folded string. -/
def itemsPass (data : Assoc) : Assoc :=
  match alGet? data "items".toList with
  | some (.list l) => alSet data "equipment_list".toList (.str (itemsFoldStr l))
  | _ => data

/-- Second normalization pass of `fill_vertical_template`: when `systems` is
bound to a non-empty list, copy each field of the first system into the
top-level mapping unless the key is already present. -/
def systemsPass (data : Assoc) : Assoc :=
  match alGet? data "systems".toList with
  | some (.list (s :: _)) =>
    (asDict s).foldl (fun d kv => if alContains d kv.1 then d else alSet d kv.1 kv.2) data
  | _ => data

/-- Both up-front reserved-key normalization passes of `fill_vertical_template`. -/
def normalizeVertData (data : Assoc) : Assoc := systemsPass (itemsPass data)

/-- One row of `fill_vertical_template`: a truthy string label in column A
that matches a data key gets the formatted value written to column B. -/
def vertRowStep (dataN : Assoc) (data_keys : List Str) (st : Ws × Nat) (r : Nat) : Ws × Nat :=
  if pyTruthy (st.1.cells r 1) && isStrVal (st.1.cells r 1) then
    match find_matching_data_key (pyStr (st.1.cells r 1)) data_keys with
    | some matching_key =>
      (setCell st.1 r 2 (format_vertical_value (alGetD dataN matching_key (.str []))), st.2 + 1)
    | Option.none => st
  else st

/-- Source `fill_vertical_template`, returning the mutated worksheet, the
`filled` count, and the (in-place mutated) data mapping. -/
def fill_vertical_template (ws : Ws) (data : Assoc) : Ws × Nat × Assoc :=
  (((List.range' 1 ws.maxRow).foldl
      (vertRowStep (normalizeVertData data) ((normalizeVertData data).map Prod.fst))
      (ws, 0)).1,
   ((List.range' 1 ws.maxRow).foldl
      (vertRowStep (normalizeVertData data) ((normalizeVertData data).map Prod.fst))
      (ws, 0)).2,
   normalizeVertData data)

/-- Worksheet whose only multi-column header row sits at row 30: columns
A/B/C of row 30 hold "Item" / "Site A" / "Site B", everything else is empty. -/
def wsRow30 : Ws :=
  { cells := fun r c =>
      if r = 30 && c = 1 then .str "Item".toList
      else if r = 30 && c = 2 then .str "Site A".toList
      else if r = 30 && c = 3 then .str "Site B".toList
      else .none
    maxRow := 30, maxCol := 3 }

/-- Multi-column template: header row 1 `["Item", "Site 1"]`, data row 2
label "Battery Type", all other cells empty. -/
def wsNoName : Ws :=
  { cells := fun r c =>
      if r = 1 && c = 1 then .str "Item".toList
      else if r = 1 && c = 2 then .str "Site 1".toList
      else if r = 2 && c = 1 then .str "Battery Type".toList
      else .none
    maxRow := 2, maxCol := 2 }

/-- Data whose single system lacks a `site_name` field. -/
def dataNoName : Assoc :=
  [("systems".toList, .list [.dict [("battery_type".toList, .str "VRLA".toList)]])]

/-- Multi-column header row with a duplicated header text: row 1 holds
`["Item", "X", "X", "Y"]` across columns 1..4. -/
def wsDupHeaders : Ws :=
  { cells := fun r c =>
      if r = 1 && c = 1 then .str "Item".toList
      else if r = 1 && c = 2 then .str "X".toList
      else if r = 1 && c = 3 then .str "X".toList
      else if r = 1 && c = 4 then .str "Y".toList
      else .none
    maxRow := 1, maxCol := 4 }

/-- Data mapping with a top-level key and a one-system `systems` list. -/
def dataC9 : Assoc :=
  [("systems".toList, .list [.dict [("battery_type".toList, .str "VRLA".toList)]]),
   ("project_name".toList, .str "Alpha".toList)]

/-- Write condition of a vertical-filler row on a worksheet: a truthy
string label in column A that matches some key of the (normalized) data. -/
def vertRowWrites (ws : Ws) (dataN : Assoc) (r : Nat) : Bool :=
  (pyTruthy (ws.cells r 1) && isStrVal (ws.cells r 1)) &&
    (find_matching_data_key (pyStr (ws.cells r 1)) (dataN.map Prod.fst)).isSome

/-- Match condition of a multi-column data row: a truthy column-A label
that matches one of the given data keys. -/
def multiRowMatches (ws : Ws) (data_keys : List Str) (r : Nat) : Bool :=
  pyTruthy (ws.cells r 1) &&
    (find_matching_data_key (pyStr (ws.cells r 1)) data_keys).isSome

/-- Keys of the first system of the data's `systems` list (the
representative schema the multi-column filler matches against). -/
def multicolumnDataKeys (data : Assoc) : List Str :=
  match asList (alGetD data "systems".toList (.list [])) with
  | [] => []
  | s0 :: _ => (asDict s0).map Prod.fst

/-- Multi-column template with two site columns: header row 1
`["Item", "Site 1", "Site 2"]`, data row 2 label "Battery Type". -/
def wsThree : Ws :=
  { cells := fun r c =>
      if r = 1 && c = 1 then .str "Item".toList
      else if r = 1 && c = 2 then .str "Site 1".toList
      else if r = 1 && c = 3 then .str "Site 2".toList
      else if r = 2 && c = 1 then .str "Battery Type".toList
      else .none
    maxRow := 2, maxCol := 3 }

/-- System record with a `site_name` and a `battery_type`. -/
def mkSys (nm bt : String) : PyVal :=
  .dict [("site_name".toList, .str nm.toList), ("battery_type".toList, .str bt.toList)]

/-- Three systems with distinct site names (one more system than site columns). -/
def dataThree : Assoc :=
  [("systems".toList, .list [mkSys "A" "x", mkSys "B" "y", mkSys "C" "z"])]

/-- Three systems where the excess third system reuses the first one's site name. -/
def dataDupNames : Assoc :=
  [("systems".toList, .list [mkSys "A" "x", mkSys "B" "y", mkSys "A" "z"])]

/-- Shape of the `system_to_col` dict the assignment loop builds when the
assigned site names are fresh at every step: position k of the systems list
is bound to `cols[k]` while columns remain. -/
def assignedPairs (cols : List Nat) (names : Nat → Str) : Nat → List PyVal → List (PyVal × Nat)
  | _, [] => []
  | k, _ :: rest =>
    if k < cols.length then
      (PyVal.str (names k), cols.getD k 0) :: assignedPairs cols names (k + 1) rest
    else assignedPairs cols names (k + 1) rest

/-- Columns actually assigned to systems by the multi-column filler: the
sorted site columns truncated to the number of systems (with fewer systems
than site columns, trailing site columns receive no system). Every write of
`fill_multicolumn_template` outside the header's column A lands in one of
these columns. -/
def assignedCols (ws : Ws) (data : Assoc) (header_row : Nat) : List Nat :=
  (colIndicesOf ws header_row).take
    (asList (alGetD data "systems".toList (.list []))).length

/-- Data with a single system (fewer systems than `wsThree`'s site columns). -/
def dataOne : Assoc := [("systems".toList, .list [mkSys "A" "x"])]

/-! Generic list lemmas used by the proofs below. -/

theorem mapFixed {α : Type} (f : α → α) : ∀ l : List α, (∀ x ∈ l, f x = x) → l.map f = l := by
  intro l h
  induction l with
  | nil => rfl
  | cons a t ih =>
    simp only [List.map_cons]
    rw [h a (List.mem_cons_self a t), ih (fun x hx => h x (List.mem_cons_of_mem a hx))]

theorem dropWhile_dropWhile {α : Type} (p : α → Bool) (l : List α) :
    List.dropWhile p (List.dropWhile p l) = List.dropWhile p l := by
  induction l with
  | nil => rfl
  | cons a t ih =>
    by_cases h : p a
    · simp [List.dropWhile_cons, h, ih]
    · simp [List.dropWhile_cons, h]

theorem dropWhile_fixed_of_prefix {α : Type} (p : α → Bool) (u v : List α)
    (hu : List.dropWhile p u = u) (hv : v <+: u) : List.dropWhile p v = v := by
  cases v with
  | nil => rfl
  | cons a t =>
    obtain ⟨r, hr⟩ := hv
    rw [← hr] at hu
    by_cases h : p a
    · exfalso
      rw [List.cons_append, List.dropWhile_cons] at hu
      simp only [h, if_true] at hu
      have hle := (List.dropWhile_sublist (l := t ++ r) p).length_le
      rw [hu] at hle
      simp only [List.length_cons] at hle
      omega
    · rw [List.dropWhile_cons]
      simp [h]

theorem foldl_inv {σ α : Type} (P : σ → Prop) (f : σ → α → σ) (l : List α) (s : σ)
    (h0 : P s) (hstep : ∀ s a, a ∈ l → P s → P (f s a)) : P (List.foldl f s l) := by
  induction l generalizing s with
  | nil => exact h0
  | cons a as ih =>
    exact ih (f s a) (hstep s a (List.mem_cons_self a as) h0)
      (fun s' b hb hp => hstep s' b (List.mem_cons_of_mem a hb) hp)

theorem find?_range'_eq_some (P : Nat → Bool) (r : Nat) :
    ∀ (s n : Nat), s ≤ r → r < s + n → P r = true →
    (∀ y, s ≤ y → y < r → P y = false) → (List.range' s n).find? P = some r := by
  intro s n
  induction n generalizing s with
  | zero => intro h1 h2; omega
  | succ n ih =>
    intro h1 h2 h3 h4
    rw [List.range'_succ, List.find?_cons]
    by_cases hs : s = r
    · subst hs
      simp [h3]
    · have hps : P s = false := h4 s (Nat.le_refl s) (by omega)
      simp only [hps]
      exact ih (s + 1) (by omega) (by omega) h3 (fun y hy1 hy2 => h4 y (by omega) hy2)

/-! Facts about `pyStrip` and `normalize_key` supporting claim C6. -/

theorem mem_pyStrip {c : Char} {s : Str} (h : c ∈ pyStrip s) : c ∈ s := by
  unfold pyStrip at h
  rw [List.mem_reverse] at h
  have h1 := (List.dropWhile_sublist (l := (s.dropWhile isPySpace).reverse) isPySpace).subset h
  rw [List.mem_reverse] at h1
  exact (List.dropWhile_sublist (l := s) isPySpace).subset h1

theorem pyStrip_idem (s : Str) : pyStrip (pyStrip s) = pyStrip s := by
  unfold pyStrip
  set u := s.dropWhile isPySpace with hu_def
  have hu : u.dropWhile isPySpace = u := dropWhile_dropWhile isPySpace s
  set w := (u.reverse.dropWhile isPySpace).reverse with hw_def
  have hw_pref : w <+: u := by
    rw [hw_def]
    have : (u.reverse.dropWhile isPySpace).reverse <+: u.reverse.reverse :=
      List.reverse_prefix.mpr (List.dropWhile_suffix isPySpace)
    rwa [List.reverse_reverse] at this
  have hw : w.dropWhile isPySpace = w := dropWhile_fixed_of_prefix isPySpace u w hu hw_pref
  rw [hw]
  rw [hw_def, List.reverse_reverse, dropWhile_dropWhile]

theorem lowerChar_idem (c : Char) : lowerChar (lowerChar c) = lowerChar c := by
  have hd : lowerChar c = lowerChar c := rfl
  conv_lhs at hd => unfold lowerChar
  split at hd <;> (rw [← hd]; first | rfl | exact hd.symm)

theorem normChar_fixed (c : Char) :
    lowerChar (replHyphenChar (replUnderChar (lowerChar c))) =
      replHyphenChar (replUnderChar (lowerChar c)) ∧
    replUnderChar (replHyphenChar (replUnderChar (lowerChar c))) =
      replHyphenChar (replUnderChar (lowerChar c)) ∧
    replHyphenChar (replHyphenChar (replUnderChar (lowerChar c))) =
      replHyphenChar (replUnderChar (lowerChar c)) := by
  by_cases h1 : lowerChar c = '_'
  · rw [h1]
    exact ⟨rfl, rfl, rfl⟩
  · by_cases h2 : lowerChar c = '-'
    · rw [h2]
      exact ⟨rfl, rfl, rfl⟩
    · have hrU : replUnderChar (lowerChar c) = lowerChar c := by simp [replUnderChar, h1]
      have hrH : replHyphenChar (lowerChar c) = lowerChar c := by simp [replHyphenChar, h2]
      rw [hrU, hrH]
      exact ⟨lowerChar_idem c, hrU, hrH⟩

theorem normalize_key_chars (s : Str) :
    ∀ c ∈ normalize_key s, lowerChar c = c ∧ replUnderChar c = c ∧ replHyphenChar c = c := by
  intro c hc
  unfold normalize_key at hc
  have hmem := mem_pyStrip hc
  rw [List.map_map, List.map_map] at hmem
  obtain ⟨x, _, hx⟩ := List.mem_map.mp hmem
  have h := normChar_fixed x
  simp only [Function.comp] at hx
  rw [← hx]
  exact h

/-- C6: `normalize_key` is a pure total function on strings (it is a Lean
`def`, hence total and deterministic); its output contains no underscore, no
hyphen and no uppercase letter (every character is fixed by the lowering and
replacement steps), carries no surrounding whitespace, and the function is
idempotent: `normalize_key (normalize_key x) = normalize_key x` for every
string `x`. -/
theorem normalize_key_idempotent (key : Str) :
    normalize_key (normalize_key key) = normalize_key key ∧
    pyStrip (normalize_key key) = normalize_key key ∧
    ∀ c ∈ normalize_key key, lowerChar c = c ∧ replUnderChar c = c ∧ replHyphenChar c = c := by
  have hchars := normalize_key_chars key
  have h1 : (normalize_key key).map lowerChar = normalize_key key :=
    mapFixed _ _ (fun c hc => (hchars c hc).1)
  have h2 : (normalize_key key).map replUnderChar = normalize_key key :=
    mapFixed _ _ (fun c hc => (hchars c hc).2.1)
  have h3 : (normalize_key key).map replHyphenChar = normalize_key key :=
    mapFixed _ _ (fun c hc => (hchars c hc).2.2)
  refine ⟨?_, ?_, hchars⟩
  · show pyStrip ((((normalize_key key).map lowerChar).map replUnderChar).map replHyphenChar) =
      normalize_key key
    rw [h1, h2, h3]
    unfold normalize_key
    exact pyStrip_idem _
  · unfold normalize_key
    exact pyStrip_idem _

/-- Witness for C6 at the concrete label `"  Battery_Type- "`. -/
theorem normalize_key_idempotent_witness :
    normalize_key (normalize_key "  Battery_Type- ".toList) =
      normalize_key "  Battery_Type- ".toList ∧
    lowerChar 'b' = 'b' :=
  ⟨(normalize_key_idempotent "  Battery_Type- ".toList).1,
   ((normalize_key_idempotent "  Battery_Type- ".toList).2.2 'b' (by decide)).1⟩

/-- C1: `find_matching_data_key` evaluates its three strategies in fixed
priority with the first success winning. Stage 1 (`exactKeyFind`) returns
the first data key, in insertion order, whose normalized form equals the
normalized label, ignoring the later stages; stage 2 (`partialKeyFind`)
fires only when stage 1 fails and returns the first key, in insertion
order, whose normalized form is a substring of the normalized label or vice
versa; only when both fail is the synonym table scanned in declaration
order (`mappingsFind`: for each pattern contained in the normalized label,
each candidate in order, the first data key whose normalized form equals or
contains the candidate), and when that too fails the matcher returns
`none`. -/
theorem find_matching_data_key_priority (template_field : Str) (data_keys : List Str) :
    (∀ k, exactKeyFind (normalize_key template_field) data_keys = some k →
      find_matching_data_key template_field data_keys = some k) ∧
    (exactKeyFind (normalize_key template_field) data_keys = Option.none →
      ∀ k, partialKeyFind (normalize_key template_field) data_keys = some k →
      find_matching_data_key template_field data_keys = some k) ∧
    (exactKeyFind (normalize_key template_field) data_keys = Option.none →
      partialKeyFind (normalize_key template_field) data_keys = Option.none →
      find_matching_data_key template_field data_keys =
        mappingsFind (normalize_key template_field) data_keys) := by
  refine ⟨?_, ?_, ?_⟩
  · intro k hk
    unfold find_matching_data_key
    rw [hk]
  · intro h1 k hk
    unfold find_matching_data_key
    rw [h1, hk]
  · intro h1 h2
    unfold find_matching_data_key
    rw [h1, h2]

/-- Witness for C1: an exact match wins at `"Load-List"` against
`["load_list", "loads"]`, and with no exact match, the substring stage
resolves `"Battery"` to `"battery_type"`. -/
theorem find_matching_data_key_priority_witness :
    find_matching_data_key "Load-List".toList ["load_list".toList, "loads".toList] =
      some "load_list".toList ∧
    find_matching_data_key "Battery".toList ["battery_type".toList] =
      some "battery_type".toList :=
  ⟨(find_matching_data_key_priority "Load-List".toList
      ["load_list".toList, "loads".toList]).1 _ (by decide),
   (find_matching_data_key_priority "Battery".toList ["battery_type".toList]).2.1
      (by decide) _ (by decide)⟩

/-- Counterexample for C3 as stated: row 30 of `wsRow30` satisfies the
multi-column header condition and no row of 1..29 does, so the claim's
"rows 1..30" reading demands `("multi-column", 30)`; the code's
`range(1, 30)` scan stops at row 29 and the function returns
`("horizontal", 0)`. -/
theorem detect_template_format_row30_cex :
    multiHeaderProbe wsRow30 30 = true ∧
    (List.range' 1 29).all (fun r => !multiHeaderProbe wsRow30 r) = true ∧
    detect_template_format wsRow30 = ("horizontal".toList, 0) :=
  ⟨by decide, by decide, by decide⟩

/-- C3 (amended: the multi-column probe covers rows 1..29 — Python
`range(1, 30)` — not 1..30): `detect_template_format` returns
`("multi-column", r)` for the smallest row r in 1..29 whose column-A value
is truthy with lowercased text containing "item" or "question" and whose
columns B and C are truthy; if no such row exists it returns
`("vertical", 0)` iff at least 3 of rows 1..24 of column A (bounded by
`max_row`) hold a string longer than 5 characters containing a question
mark, and `("horizontal", 0)` otherwise. -/
theorem detect_template_format_spec (ws : Ws) :
    (∀ r, 1 ≤ r → r ≤ 29 → multiHeaderProbe ws r = true →
      (∀ q, 1 ≤ q → q < r → multiHeaderProbe ws q = false) →
      detect_template_format ws = ("multi-column".toList, r)) ∧
    ((∀ r, 1 ≤ r → r ≤ 29 → multiHeaderProbe ws r = false) →
      ((3 ≤ questionLabelCount ws → detect_template_format ws = ("vertical".toList, 0)) ∧
       (questionLabelCount ws < 3 → detect_template_format ws = ("horizontal".toList, 0)) ∧
       (detect_template_format ws = ("vertical".toList, 0) ↔ 3 ≤ questionLabelCount ws))) := by
  constructor
  · intro r h1 h2 hp hmin
    unfold detect_template_format
    rw [find?_range'_eq_some (fun q => multiHeaderProbe ws q) r 1 29 h1 (by omega) hp
      (fun y hy1 hy2 => hmin y hy1 hy2)]
  · intro hall
    have hnone : (List.range' 1 29).find? (fun q => multiHeaderProbe ws q) = Option.none := by
      rw [List.find?_eq_none]
      intro x hx
      have hmem := List.mem_range'_1.mp hx
      simp [hall x hmem.1 (by omega)]
    refine ⟨?_, ?_, ?_, ?_⟩
    · intro h3
      unfold detect_template_format
      rw [hnone]
      simp [h3]
    · intro h3
      unfold detect_template_format
      rw [hnone]
      simp [Nat.not_le.mpr h3]
    · intro hv
      by_contra hnot
      unfold detect_template_format at hv
      rw [hnone, if_neg hnot] at hv
      exact absurd (congrArg Prod.fst hv) (by decide)
    · intro h3
      unfold detect_template_format
      rw [hnone]
      simp [h3]

/-- Witness for C3's amended theorem: a header row at row 30 is invisible to
the scan, so the fallback applies, and on a worksheet with "Item"/"Site A"/
"Site B" at row 30 only, zero question labels force `horizontal`. -/
theorem detect_template_format_spec_witness :
    detect_template_format wsRow30 = ("horizontal".toList, 0) :=
  ((detect_template_format_spec wsRow30).2 (fun r h1 h2 => by
    have : (List.range' 1 29).all (fun q => !multiHeaderProbe wsRow30 q) = true := by decide
    have hmem : r ∈ List.range' 1 29 := List.mem_range'_1.mpr ⟨h1, by omega⟩
    have := List.all_eq_true.mp this r hmem
    simpa using this)).2.1 (by decide)

/-- Counterexample for C5 as stated: on the mapping `{"x": 0}` the vertical
filler omits the falsy value and produces the empty string, while the
multi-column filler keeps it and produces `"x: 0"` — the two fillers do not
format every value identically. -/
theorem format_value_divergence_cex :
    format_vertical_value (.dict [("x".toList, .int 0)]) = .str [] ∧
    format_multicolumn_value (.dict [("x".toList, .int 0)]) = .str "x: 0".toList ∧
    format_vertical_value (.dict [("x".toList, .int 0)]) ≠
      format_multicolumn_value (.dict [("x".toList, .int 0)]) := by
  refine ⟨rfl, rfl, ?_⟩
  intro h
  rw [show format_vertical_value (.dict [("x".toList, .int 0)]) = PyVal.str [] from rfl,
      show format_multicolumn_value (.dict [("x".toList, .int 0)]) =
        PyVal.str "x: 0".toList from rfl] at h
  exact absurd (PyVal.str.inj h) (by decide)

/-- C5 (amended: the fillers' formatting is not identical on every value —
they agree on scalars, which pass through unchanged, and on any list
containing a non-mapping element, which both join with ", " over `str` of
the elements; but `fill_vertical_template` renders a mapping with falsy
values omitted while `fill_multicolumn_template` renders every entry, and a
list consisting of mappings is rendered by the vertical filler as
newline-joined " | "-entry renderings but by the multi-column filler as a
", "-join of Python `str` of the dicts). -/
theorem format_value_agreement (v : PyVal) :
    ((isStrVal v = true ∨ v = .none ∨ (∃ n, v = .int n)) →
      format_vertical_value v = v ∧ format_multicolumn_value v = v) ∧
    (∀ xs, v = .list xs → (∃ x ∈ xs, isDictVal x = false) →
      format_vertical_value v = format_multicolumn_value v) ∧
    (∀ d, v = .dict d →
      format_vertical_value v =
        .str (joinSep ", ".toList ((d.filter (fun kv => pyTruthy kv.2)).map formatEntry)) ∧
      format_multicolumn_value v = .str (joinSep ", ".toList (d.map formatEntry))) ∧
    (∀ xs, v = .list xs → xs.all isDictVal = true →
      format_vertical_value v = .str (joinSep ['\n'] (xs.map (fun x =>
        joinSep " | ".toList (((asDict x).filter (fun kv => pyTruthy kv.2)).map formatEntry)))) ∧
      format_multicolumn_value v = .str (joinSep ", ".toList (xs.map pyStr))) := by
  refine ⟨?_, ?_, ?_, ?_⟩
  · rintro (hs | rfl | ⟨n, rfl⟩)
    · cases v with
      | str s => exact ⟨rfl, rfl⟩
      | none => exact ⟨rfl, rfl⟩
      | int n => exact ⟨rfl, rfl⟩
      | list xs => exact absurd hs (by simp [isStrVal])
      | dict d => exact absurd hs (by simp [isStrVal])
    · exact ⟨rfl, rfl⟩
    · exact ⟨rfl, rfl⟩
  · rintro xs rfl ⟨x, hx, hxd⟩
    cases hall : xs.all isDictVal with
    | false => simp [format_vertical_value, format_multicolumn_value, hall]
    | true => exact absurd (List.all_eq_true.mp hall x hx) (by simp [hxd])
  · rintro d rfl
    exact ⟨rfl, rfl⟩
  · rintro xs rfl hall
    exact ⟨by simp [format_vertical_value, hall], rfl⟩

/-- Witness for C5's amended theorem: both fillers turn the scalar list
`["A", "B"]` into the same cell value. -/
theorem format_value_agreement_witness :
    format_vertical_value (.list [.str "A".toList, .str "B".toList]) =
      format_multicolumn_value (.list [.str "A".toList, .str "B".toList]) :=
  (format_value_agreement _).2.1 _ rfl
    ⟨.str "A".toList, List.mem_cons_self _ _, rfl⟩

/-- C7: when the reserved key `systems` is absent from the data mapping or
bound to an empty list, `fill_multicolumn_template` returns a fill count of
zero and the worksheet completely unchanged. -/
theorem fill_multicolumn_no_systems (ws : Ws) (data : Assoc) (header_row : Nat)
    (h : alGet? data "systems".toList = Option.none ∨
         alGet? data "systems".toList = some (.list [])) :
    fill_multicolumn_template ws data header_row = (ws, 0) := by
  have hD : alGetD data "systems".toList (PyVal.list []) = PyVal.list [] := by
    unfold alGetD
    rcases h with h | h <;> rw [h]
  unfold fill_multicolumn_template
  rw [hD]
  rfl

/-- Witness for C7 on an empty data mapping and a blank 5×5 worksheet. -/
theorem fill_multicolumn_no_systems_witness :
    fill_multicolumn_template ⟨fun _ _ => PyVal.none, 5, 5⟩ [] 1 =
      (⟨fun _ _ => PyVal.none, 5, 5⟩, 0) :=
  fill_multicolumn_no_systems ⟨fun _ _ => PyVal.none, 5, 5⟩ [] 1 (Or.inl rfl)

/-- C2 fails on the code (code bug): on a template with header
`["Item", "Site 1"]` and row `["Battery Type", _]`, and one system
`{"battery_type": "VRLA"}` without `site_name`, the assignment step binds
the system under the synthesized name `System_1` and rewrites the header
cell accordingly, but the fill loop looks the system up under the default
`""`, so the matched row receives no write and the fill count is 0 — even
though the label matches the key `battery_type`. -/
theorem multicolumn_missing_site_name_eval :
    (fill_multicolumn_template wsNoName dataNoName 1).2 = 0 ∧
    (fill_multicolumn_template wsNoName dataNoName 1).1.cells 2 2 = PyVal.none ∧
    (fill_multicolumn_template wsNoName dataNoName 1).1.cells 1 2 =
      PyVal.str "System_1".toList ∧
    find_matching_data_key "Battery Type".toList ["battery_type".toList] =
      some "battery_type".toList :=
  ⟨rfl, rfl, rfl, rfl⟩

/-! Association-list lemmas. -/

theorem alGet?_alSet_self {κ β : Type} [BEq κ] [LawfulBEq κ] (d : List (κ × β)) (k : κ) (v : β) :
    alGet? (alSet d k v) k = some v := by
  induction d with
  | nil => simp [alSet, alGet?]
  | cons a t ih =>
    obtain ⟨k', v'⟩ := a
    by_cases h : (k' == k) = true
    · simp [alSet, h, alGet?]
    · have h' : (k' == k) = false := by simpa using h
      simp [alSet, h', alGet?, ih]

theorem alGet?_alSet_ne {κ β : Type} [BEq κ] [LawfulBEq κ] (d : List (κ × β)) (k k₂ : κ)
    (v : β) (hne : k ≠ k₂) : alGet? (alSet d k v) k₂ = alGet? d k₂ := by
  induction d with
  | nil => simp [alSet, alGet?, beq_eq_false_iff_ne.mpr hne]
  | cons a t ih =>
    obtain ⟨k', v'⟩ := a
    by_cases h : (k' == k) = true
    · have hk : k' = k := eq_of_beq h
      subst hk
      simp [alSet, alGet?, beq_eq_false_iff_ne.mpr hne]
    · have h' : (k' == k) = false := by simpa using h
      by_cases h2 : (k' == k₂) = true
      · simp [alSet, h', alGet?, h2]
      · have h2' : (k' == k₂) = false := by simpa using h2
        simp [alSet, h', alGet?, h2', ih]

theorem siteCols_fold_skip (ws : Ws) (hr : Nat) (t : Str) :
    ∀ (l : List Nat) (m : List (Str × Nat)),
      (∀ c' ∈ l, pyTruthy (ws.cells hr c') = true → headerText ws hr c' ≠ t) →
      alGet? (l.foldl (fun m c =>
          if pyTruthy (ws.cells hr c) then alSet m (headerText ws hr c) c else m) m) t =
        alGet? m t := by
  intro l
  induction l with
  | nil => intro m _; rfl
  | cons a l' ih =>
    intro m hno
    rw [List.foldl_cons]
    by_cases ha : pyTruthy (ws.cells hr a) = true
    · rw [if_pos ha]
      rw [ih _ (fun c' hc' => hno c' (List.mem_cons_of_mem a hc'))]
      exact alGet?_alSet_ne m _ t a (hno a (List.mem_cons_self a l') ha)
    · rw [if_neg ha]
      exact ih m (fun c' hc' => hno c' (List.mem_cons_of_mem a hc'))

theorem siteCols_fold_rightmost (ws : Ws) (hr : Nat) (t : Str) :
    ∀ (l : List Nat), l.Pairwise (· < ·) → ∀ (m : List (Str × Nat)) (c : Nat), c ∈ l →
      pyTruthy (ws.cells hr c) = true → headerText ws hr c = t →
      (∀ c' ∈ l, c < c' → pyTruthy (ws.cells hr c') = true → headerText ws hr c' ≠ t) →
      alGet? (l.foldl (fun m c =>
          if pyTruthy (ws.cells hr c) then alSet m (headerText ws hr c) c else m) m) t =
        some c := by
  intro l
  induction l with
  | nil => intro _ m c hc; exact absurd hc (List.not_mem_nil c)
  | cons a l' ih =>
    intro hpw m c hc htr htx hmax
    have hpw' := (List.pairwise_cons.mp hpw).2
    have halt := (List.pairwise_cons.mp hpw).1
    rw [List.foldl_cons]
    rcases List.mem_cons.mp hc with rfl | hc'
    · rw [if_pos htr, htx]
      rw [siteCols_fold_skip ws hr t l' _ (fun c' hc'' ht'' =>
        hmax c' (List.mem_cons_of_mem c hc'') (halt c' hc'') ht'')]
      exact alGet?_alSet_self m t c
    · by_cases ha : pyTruthy (ws.cells hr a) = true
      · rw [if_pos ha]
        exact ih hpw' _ c hc' htr htx
          (fun c' hc'' hlt ht'' => hmax c' (List.mem_cons_of_mem a hc'') hlt ht'')
      · rw [if_neg ha]
        exact ih hpw' m c hc' htr htx
          (fun c' hc'' hlt ht'' => hmax c' (List.mem_cons_of_mem a hc'') hlt ht'')

/-- C10: the site-column scan records columns in a dict keyed by the
stripped header text, so the kept column for a text is the rightmost truthy
column carrying it (first conjunct, fully general); on a header row
`["Item", "X", "X", "Y"]` this yields 2 recorded slots against 3 non-empty
header cells, the sorted column list `[3, 4]` (column 2 is dropped), and
the positional assignment shifts: the first system is bound to column 3
and the second to column 4. -/
theorem siteColumns_rightmost_dedup :
    (∀ (ws : Ws) (hr : Nat) (t : Str) (c : Nat),
      c ∈ siteScanCols ws → pyTruthy (ws.cells hr c) = true → headerText ws hr c = t →
      (∀ c' ∈ siteScanCols ws, c < c' → pyTruthy (ws.cells hr c') = true →
        headerText ws hr c' ≠ t) →
      alGet? (siteColumnsOf ws hr) t = some c) ∧
    (siteColumnsOf wsDupHeaders 1).length = 2 ∧
    ((siteScanCols wsDupHeaders).filter
      (fun c => pyTruthy (wsDupHeaders.cells 1 c))).length = 3 ∧
    colIndicesOf wsDupHeaders 1 = [3, 4] ∧
    (assignSystems wsDupHeaders 1
      [PyVal.dict [("site_name".toList, PyVal.str "A".toList)],
       PyVal.dict [("site_name".toList, PyVal.str "B".toList)]]
      (colIndicesOf wsDupHeaders 1)).1 =
      [(PyVal.str "A".toList, 3), (PyVal.str "B".toList, 4)] := by
  refine ⟨?_, by decide, by decide, by decide, rfl⟩
  intro ws hr t c hc htr htx hmax
  unfold siteColumnsOf
  exact siteCols_fold_rightmost ws hr t (siteScanCols ws)
    (List.pairwise_lt_range' 2 (min 20 (ws.maxCol + 1) - 2)) [] c hc htr htx hmax

/-- Witness for C10: on the duplicated header row, the text "X" resolves to
column 3 (the rightmost of columns 2 and 3), not column 2. -/
theorem siteColumns_rightmost_dedup_witness :
    alGet? (siteColumnsOf wsDupHeaders 1) "X".toList = some 3 :=
  siteColumns_rightmost_dedup.1 wsDupHeaders 1 "X".toList 3
    (by decide) (by decide) (by decide) (by decide)

/-! Lemmas about the vertical filler's reserved-key normalization passes. -/

theorem alContains_alSet_mono {κ β : Type} [BEq κ] [LawfulBEq κ] (d : List (κ × β))
    (k' : κ) (v : β) (k : κ) (h : alContains d k = true) :
    alContains (alSet d k' v) k = true := by
  by_cases he : k' = k
  · subst he
    unfold alContains
    rw [alGet?_alSet_self]
    rfl
  · unfold alContains
    rw [alGet?_alSet_ne d k' k v he]
    exact h

theorem itemsPass_preserves (data : Assoc) (k : Str) (h : k ≠ "equipment_list".toList) :
    alGet? (itemsPass data) k = alGet? data k := by
  unfold itemsPass
  cases halg : alGet? data "items".toList with
  | none => rfl
  | some v =>
    cases v with
    | list l => exact alGet?_alSet_ne data _ k _ (fun heq => h heq.symm)
    | none => rfl
    | str s => rfl
    | int n => rfl
    | dict d => rfl

theorem itemsPass_contains_mono (data : Assoc) (k : Str) (h : alContains data k = true) :
    alContains (itemsPass data) k = true := by
  unfold itemsPass
  cases halg : alGet? data "items".toList with
  | none => exact h
  | some v =>
    cases v with
    | list l => exact alContains_alSet_mono data _ _ k h
    | none => exact h
    | str s => exact h
    | int n => exact h
    | dict d => exact h

theorem promo_fold_preserve (entries : Assoc) : ∀ (cur : Assoc) (k : Str),
    alContains cur k = true →
    alGet? (entries.foldl
      (fun d kv => if alContains d kv.1 then d else alSet d kv.1 kv.2) cur) k =
      alGet? cur k := by
  induction entries with
  | nil => intro cur k _; rfl
  | cons e rest ih =>
    intro cur k h
    rw [List.foldl_cons]
    by_cases hc : alContains cur e.1 = true
    · rw [if_pos hc]
      exact ih cur k h
    · rw [if_neg hc]
      have hne : e.1 ≠ k := by
        intro heq
        rw [heq] at hc
        exact hc h
      have h' : alContains (alSet cur e.1 e.2) k = true :=
        alContains_alSet_mono cur e.1 e.2 k h
      rw [ih _ k h']
      exact alGet?_alSet_ne cur e.1 k e.2 hne

theorem promo_fold_insert (k : Str) (v : PyVal) : ∀ (entries : Assoc) (cur : Assoc),
    alContains cur k = false → alGet? entries k = some v →
    alGet? (entries.foldl
      (fun d kv => if alContains d kv.1 then d else alSet d kv.1 kv.2) cur) k =
      some v := by
  intro entries
  induction entries with
  | nil => intro cur _ hfind; exact absurd hfind (by simp [alGet?])
  | cons e rest ih =>
    intro cur hcur hfind
    obtain ⟨k₁, v₁⟩ := e
    rw [List.foldl_cons]
    by_cases hk : (k₁ == k) = true
    · have hk' : k₁ = k := eq_of_beq hk
      subst hk'
      rw [show alGet? ((k₁, v₁) :: rest) k₁ = some v₁ from by simp [alGet?]] at hfind
      have hcc : alContains cur k₁ = false := hcur
      rw [if_neg (by rw [hcc]; exact Bool.false_ne_true)]
      have hself : alContains (alSet cur k₁ v₁) k₁ = true := by
        unfold alContains
        rw [alGet?_alSet_self]
        rfl
      rw [promo_fold_preserve rest _ k₁ hself, alGet?_alSet_self]
      exact hfind
    · have hk' : (k₁ == k) = false := by simpa using hk
      have hne : k₁ ≠ k := by
        intro heq
        rw [heq] at hk'
        simp at hk'
      rw [show alGet? ((k₁, v₁) :: rest) k = alGet? rest k from by simp [alGet?, hk']] at hfind
      by_cases hc : alContains cur k₁ = true
      · rw [if_pos hc]
        exact ih cur hcur hfind
      · rw [if_neg hc]
        have hcur' : alContains (alSet cur k₁ v₁) k = false := by
          unfold alContains
          rw [alGet?_alSet_ne cur k₁ k v₁ hne]
          exact hcur
        exact ih _ hcur' hfind

theorem systemsPass_eq_fold (D : Assoc) (s : PyVal) (rest : List PyVal)
    (h : alGet? D "systems".toList = some (.list (s :: rest))) :
    systemsPass D = (asDict s).foldl
      (fun d kv => if alContains d kv.1 then d else alSet d kv.1 kv.2) D := by
  unfold systemsPass
  rw [h]

theorem systemsPass_preserves (D : Assoc) (k : Str) (h : alContains D k = true) :
    alGet? (systemsPass D) k = alGet? D k := by
  unfold systemsPass
  cases hs : alGet? D "systems".toList with
  | none => rfl
  | some v =>
    cases v with
    | list l =>
      cases l with
      | nil => rfl
      | cons s rest => exact promo_fold_preserve (asDict s) D k h
    | none => rfl
    | str s => rfl
    | int n => rfl
    | dict d => rfl

/-- C9: the vertical filler mutates the data mapping only additively and
only in the two up-front passes — the mapping it works with (and leaves
behind) is exactly `normalizeVertData data`, so the row loop performs no
mutation; no key present before the fill is removed; when `items` is bound
to a list, the derived `equipment_list` key is set to the folded items
string; every key present before the fill other than the derived
`equipment_list` keeps its exact value; the promotion pass never overwrites
any key present after the items pass; and when `systems` is a non-empty
list, each first-system field whose key is absent is added with the first
system's value. -/
theorem vertical_data_mutation_additive (ws : Ws) (data : Assoc) :
    (fill_vertical_template ws data).2.2 = normalizeVertData data ∧
    (∀ k, alContains data k = true → alContains (normalizeVertData data) k = true) ∧
    (∀ l, alGet? data "items".toList = some (.list l) →
      alGet? (normalizeVertData data) "equipment_list".toList =
        some (.str (itemsFoldStr l))) ∧
    (∀ k, k ≠ "equipment_list".toList → alContains data k = true →
      alGet? (normalizeVertData data) k = alGet? data k) ∧
    (∀ k, alContains (itemsPass data) k = true →
      alGet? (normalizeVertData data) k = alGet? (itemsPass data) k) ∧
    (∀ s rest k v, alGet? data "systems".toList = some (.list (s :: rest)) →
      alContains (itemsPass data) k = false → alGet? (asDict s) k = some v →
      alGet? (normalizeVertData data) k = some v) := by
  refine ⟨rfl, ?_, ?_, ?_, ?_, ?_⟩
  · intro k h
    have h1 := itemsPass_contains_mono data k h
    show alContains (systemsPass (itemsPass data)) k = true
    unfold alContains
    rw [systemsPass_preserves _ k h1]
    exact h1
  · intro l hl
    have hEq : alGet? (itemsPass data) "equipment_list".toList =
        some (.str (itemsFoldStr l)) := by
      unfold itemsPass
      rw [hl]
      exact alGet?_alSet_self data _ _
    have hc : alContains (itemsPass data) "equipment_list".toList = true := by
      unfold alContains
      rw [hEq]
      rfl
    show alGet? (systemsPass (itemsPass data)) "equipment_list".toList = _
    rw [systemsPass_preserves _ _ hc]
    exact hEq
  · intro k hk h
    have hIP := itemsPass_preserves data k hk
    have hc : alContains (itemsPass data) k = true := by
      unfold alContains
      rw [hIP]
      exact h
    show alGet? (systemsPass (itemsPass data)) k = _
    rw [systemsPass_preserves _ k hc, hIP]
  · intro k hc
    exact systemsPass_preserves (itemsPass data) k hc
  · intro s rest k v hs hab hv
    have hsys : alGet? (itemsPass data) "systems".toList = some (.list (s :: rest)) := by
      rw [itemsPass_preserves data _ (by decide)]
      exact hs
    show alGet? (systemsPass (itemsPass data)) k = some v
    rw [systemsPass_eq_fold _ s rest hsys]
    exact promo_fold_insert k v (asDict s) (itemsPass data) hab hv

/-- Witness for C9: on `dataC9` the absent `battery_type` is promoted from
the first system, and the pre-existing `project_name` keeps its value. -/
theorem vertical_data_mutation_additive_witness :
    alGet? (normalizeVertData dataC9) "battery_type".toList =
      some (.str "VRLA".toList) ∧
    alGet? (normalizeVertData dataC9) "project_name".toList =
      some (.str "Alpha".toList) :=
  ⟨(vertical_data_mutation_additive ⟨fun _ _ => PyVal.none, 1, 1⟩ dataC9).2.2.2.2.2
      (.dict [("battery_type".toList, .str "VRLA".toList)]) [] "battery_type".toList
      (.str "VRLA".toList) rfl (by decide) rfl,
   ((vertical_data_mutation_additive ⟨fun _ _ => PyVal.none, 1, 1⟩ dataC9).2.2.2.1
      "project_name".toList (by decide) (by decide)).trans rfl⟩

/-! Cell-update and site-column membership lemmas for the frame proofs. -/

theorem setCell_cells_ne (ws : Ws) (r c : Nat) (v : PyVal) (x y : Nat)
    (h : ¬(x = r ∧ y = c)) : (setCell ws r c v).cells x y = ws.cells x y := by
  unfold setCell
  have hb : (x = r && y = c) = false := by
    rcases Classical.em (x = r) with hx | hx
    · rcases Classical.em (y = c) with hy | hy
      · exact absurd ⟨hx, hy⟩ h
      · simp [hx, hy]
    · simp [hx]
  simp [hb]

theorem setCell_cells_self (ws : Ws) (r c : Nat) (v : PyVal) :
    (setCell ws r c v).cells r c = v := by
  simp [setCell]

theorem mem_alSet_snd {κ β : Type} [BEq κ] :
    ∀ (d : List (κ × β)) (k : κ) (v : β) (p : κ × β),
      p ∈ alSet d k v → p.2 = v ∨ p ∈ d := by
  intro d
  induction d with
  | nil =>
    intro k v p hp
    rcases List.mem_singleton.mp hp with rfl
    exact Or.inl rfl
  | cons a t ih =>
    intro k v p hp
    obtain ⟨k', v'⟩ := a
    by_cases h : (k' == k) = true
    · rw [show alSet ((k', v') :: t) k v = (k', v) :: t from by simp [alSet, h]] at hp
      rcases List.mem_cons.mp hp with rfl | hm
      · exact Or.inl rfl
      · exact Or.inr (List.mem_cons_of_mem _ hm)
    · have h' : (k' == k) = false := by simpa using h
      rw [show alSet ((k', v') :: t) k v = (k', v') :: alSet t k v from by
        simp [alSet, h']] at hp
      rcases List.mem_cons.mp hp with rfl | hm
      · exact Or.inr (List.mem_cons_self _ _)
      · rcases ih k v p hm with hv | hd
        · exact Or.inl hv
        · exact Or.inr (List.mem_cons_of_mem _ hd)

theorem siteColumns_values_mem (ws : Ws) (hr : Nat) :
    ∀ p ∈ siteColumnsOf ws hr, p.2 ∈ siteScanCols ws := by
  unfold siteColumnsOf
  refine foldl_inv (fun m : List (Str × Nat) => ∀ p ∈ m, p.2 ∈ siteScanCols ws) _
    (siteScanCols ws) []
    (by intro p hp; exact absurd hp (List.not_mem_nil p)) ?_
  intro m c hc hP
  by_cases ht : pyTruthy (ws.cells hr c) = true
  · rw [if_pos ht]
    intro p hp
    rcases mem_alSet_snd m (headerText ws hr c) c p hp with hv | hm
    · rw [hv]; exact hc
    · exact hP p hm
  · rw [if_neg ht]
    exact hP

theorem colIndices_ge_two (ws : Ws) (hr : Nat) :
    ∀ c ∈ colIndicesOf ws hr, 2 ≤ c := by
  intro c hc
  unfold colIndicesOf at hc
  have hmem := (List.perm_insertionSort (· ≤ ·) ((siteColumnsOf ws hr).map Prod.snd)).mem_iff.mp hc
  obtain ⟨p, hp, hpc⟩ := List.mem_map.mp hmem
  have := siteColumns_values_mem ws hr p hp
  rw [hpc] at this
  exact (List.mem_range'_1.mp this).1

theorem vert_fill_frame (ws : Ws) (data : Assoc) (rq cq : Nat)
    (h : cq ≠ 2 ∨ vertRowWrites ws (normalizeVertData data) rq = false) :
    (fill_vertical_template ws data).1.cells rq cq = ws.cells rq cq := by
  show ((List.range' 1 ws.maxRow).foldl
      (vertRowStep (normalizeVertData data) ((normalizeVertData data).map Prod.fst))
      (ws, 0)).1.cells rq cq = ws.cells rq cq
  refine (foldl_inv
    (fun st : Ws × Nat =>
      st.1.cells rq cq = ws.cells rq cq ∧ ∀ x, st.1.cells x 1 = ws.cells x 1)
    (vertRowStep (normalizeVertData data) ((normalizeVertData data).map Prod.fst))
    (List.range' 1 ws.maxRow) (ws, 0) ⟨rfl, fun _ => rfl⟩ ?_).1
  intro st a _ hP
  unfold vertRowStep
  by_cases hg : (pyTruthy (st.1.cells a 1) && isStrVal (st.1.cells a 1)) = true
  · rw [if_pos hg]
    cases hf : find_matching_data_key (pyStr (st.1.cells a 1))
        ((normalizeVertData data).map Prod.fst) with
    | none => exact hP
    | some mk =>
      refine ⟨?_, ?_⟩
      · by_cases har : rq = a
        · subst har
          rcases h with hcq | hw
          · exact (setCell_cells_ne st.1 rq 2 _ rq cq (fun hc => hcq hc.2)).trans hP.1
          · exfalso
            unfold vertRowWrites at hw
            rw [← hP.2 rq] at hw
            simp [hg, hf] at hw
        · exact (setCell_cells_ne st.1 a 2 _ rq cq (fun hc => har hc.1)).trans hP.1
      · intro x
        exact (setCell_cells_ne st.1 a 2 _ x 1
          (fun hc => absurd hc.2 (by decide))).trans (hP.2 x)
  · rw [if_neg hg]
    exact hP

theorem alGet?_mem_snd {κ β : Type} [BEq κ] :
    ∀ (d : List (κ × β)) (k : κ) (v : β), alGet? d k = some v → ∃ p ∈ d, p.2 = v := by
  intro d
  induction d with
  | nil => intro k v h; exact absurd h (by simp [alGet?])
  | cons a t ih =>
    intro k v h
    obtain ⟨k', v'⟩ := a
    by_cases hk : (k' == k) = true
    · rw [show alGet? ((k', v') :: t) k = some v' from by simp [alGet?, hk]] at h
      exact ⟨(k', v'), List.mem_cons_self _ _, (Option.some.inj h).symm ▸ rfl⟩
    · have hk' : (k' == k) = false := by simpa using hk
      rw [show alGet? ((k', v') :: t) k = alGet? t k from by simp [alGet?, hk']] at h
      obtain ⟨p, hp, hpv⟩ := ih k v h
      exact ⟨p, List.mem_cons_of_mem _ hp, hpv⟩

theorem assignSystems_frame (ws : Ws) (header_row : Nat) (systems : List PyVal)
    (col_indices : List Nat) (hge : ∀ c ∈ col_indices, 2 ≤ c) (rq cq : Nat)
    (hsafe : cq ∉ col_indices.take systems.length ∨ rq ≠ header_row) :
    (assignSystems ws header_row systems col_indices).2.cells rq cq = ws.cells rq cq ∧
    (∀ x, (assignSystems ws header_row systems col_indices).2.cells x 1 = ws.cells x 1) ∧
    (∀ p ∈ (assignSystems ws header_row systems col_indices).1,
      p.2 ∈ col_indices.take systems.length) := by
  unfold assignSystems
  refine foldl_inv (fun acc : List (PyVal × Nat) × Ws =>
      acc.2.cells rq cq = ws.cells rq cq ∧
      (∀ x, acc.2.cells x 1 = ws.cells x 1) ∧
      (∀ p ∈ acc.1, p.2 ∈ col_indices.take systems.length)) _ systems.enum ([], ws)
    ⟨rfl, fun _ => rfl, by intro p hp; exact absurd hp (List.not_mem_nil p)⟩ ?_
  intro acc is hmem hP
  have his : is.1 < systems.length := by
    have := List.fst_lt_add_of_mem_enumFrom
      (show is ∈ List.enumFrom 0 systems from hmem)
    omega
  unfold assignStep
  by_cases hi : is.1 < col_indices.length
  · rw [if_pos hi]
    have h1 : is.1 < (col_indices.take systems.length).length := by
      simp only [List.length_take]
      omega
    have hcolT : col_indices.getD is.1 0 ∈ col_indices.take systems.length := by
      rw [List.getD_eq_getElem col_indices 0 hi,
        ← @List.getElem_take _ col_indices systems.length is.1 h1]
      exact List.getElem_mem h1
    have hcol : col_indices.getD is.1 0 ∈ col_indices :=
      List.take_subset systems.length col_indices hcolT
    refine ⟨?_, ?_, ?_⟩
    · rcases hsafe with hq | hq
      · exact (setCell_cells_ne acc.2 header_row _ _ rq cq
          (fun hc => hq (by rw [hc.2]; exact hcolT))).trans hP.1
      · exact (setCell_cells_ne acc.2 header_row _ _ rq cq
          (fun hc => hq hc.1)).trans hP.1
    · intro x
      refine (setCell_cells_ne acc.2 header_row _ _ x 1 ?_).trans (hP.2.1 x)
      intro hc
      obtain ⟨hx, hy⟩ := hc
      have h2 := hge _ hcol
      omega
    · intro p hp
      rcases mem_alSet_snd acc.1 _ _ p hp with hv | hm
      · rw [hv]; exact hcolT
      · exact hP.2.2 p hm
  · rw [if_neg hi]
    exact hP

theorem multiRowFill_frame (systems : List PyVal) (s2c : List (PyVal × Nat))
    (mk : Str) (a : Nat) (st : Ws × Nat) (ws : Ws) (rq cq : Nat) (cols : List Nat)
    (hvals : ∀ p ∈ s2c, p.2 ∈ cols) (hge : ∀ c ∈ cols, 2 ≤ c)
    (hsafe : ∀ col ∈ cols, ¬(rq = a ∧ cq = col))
    (hst : st.1.cells rq cq = ws.cells rq cq ∧ ∀ x, st.1.cells x 1 = ws.cells x 1) :
    (multiRowFill systems s2c mk a st).1.cells rq cq = ws.cells rq cq ∧
    ∀ x, (multiRowFill systems s2c mk a st).1.cells x 1 = ws.cells x 1 := by
  unfold multiRowFill
  refine foldl_inv (fun st' : Ws × Nat => st'.1.cells rq cq = ws.cells rq cq ∧
    ∀ x, st'.1.cells x 1 = ws.cells x 1) _ systems st hst ?_
  intro st' system _ hP
  cases hcol : alGet? s2c (alGetD (asDict system) "site_name".toList (.str [])) with
  | none => exact hP
  | some col =>
    have hcmem : col ∈ cols := by
      obtain ⟨p, hp, hpv⟩ := alGet?_mem_snd s2c _ col hcol
      rw [← hpv]
      exact hvals p hp
    refine ⟨?_, ?_⟩
    · exact (setCell_cells_ne st'.1 a col _ rq cq (hsafe col hcmem)).trans hP.1
    · intro x
      refine (setCell_cells_ne st'.1 a col _ x 1 ?_).trans (hP.2 x)
      intro hc
      obtain ⟨hx, hy⟩ := hc
      have h2 := hge _ hcmem
      omega

theorem multiRowStep_frame (systems : List PyVal) (s2c : List (PyVal × Nat))
    (keys : List Str) (a : Nat) (st : Ws × Nat) (ws : Ws) (rq cq : Nat) (cols : List Nat)
    (hvals : ∀ p ∈ s2c, p.2 ∈ cols) (hge : ∀ c ∈ cols, 2 ≤ c)
    (hcase : cq ∉ cols ∨ rq ≠ a ∨ multiRowMatches ws keys rq = false)
    (hst : st.1.cells rq cq = ws.cells rq cq ∧ ∀ x, st.1.cells x 1 = ws.cells x 1) :
    (multiRowStep systems s2c keys st a).1.cells rq cq = ws.cells rq cq ∧
    ∀ x, (multiRowStep systems s2c keys st a).1.cells x 1 = ws.cells x 1 := by
  unfold multiRowStep
  by_cases hg : pyTruthy (st.1.cells a 1) = true
  · rw [if_pos hg]
    cases hf : find_matching_data_key (pyStr (st.1.cells a 1)) keys with
    | none => exact hst
    | some mk =>
      have hsafe : ∀ col ∈ cols, ¬(rq = a ∧ cq = col) := by
        rcases hcase with hq | hq | hq
        · intro col hcol hc
          rw [hc.2] at hq
          exact hq hcol
        · intro col _ hc
          exact hq hc.1
        · intro col _ hc
          rw [hc.1] at hq
          unfold multiRowMatches at hq
          rw [← hst.2 a] at hq
          simp [hg, hf] at hq
      exact multiRowFill_frame systems s2c mk a st ws rq cq cols hvals hge hsafe hst
  · rw [if_neg hg]
    exact hst

theorem multi_fill_frame (ws : Ws) (data : Assoc) (header_row rq cq : Nat)
    (h : cq ∉ assignedCols ws data header_row ∨
      (rq ≠ header_row ∧ (rq ≤ header_row ∨
        multiRowMatches ws (multicolumnDataKeys data) rq = false))) :
    (fill_multicolumn_template ws data header_row).1.cells rq cq = ws.cells rq cq := by
  unfold fill_multicolumn_template
  cases hsys : asList (alGetD data "systems".toList (.list [])) with
  | nil => rfl
  | cons s0 tail =>
    have hkeys : multicolumnDataKeys data = (asDict s0).map Prod.fst := by
      unfold multicolumnDataKeys
      rw [hsys]
    have hassigned : assignedCols ws data header_row =
        (colIndicesOf ws header_row).take (s0 :: tail).length := by
      unfold assignedCols
      rw [hsys]
    rw [hkeys, hassigned] at h
    have hge' : ∀ c ∈ (colIndicesOf ws header_row).take (s0 :: tail).length, 2 ≤ c :=
      fun c hc => colIndices_ge_two ws header_row c
        (List.take_subset (s0 :: tail).length (colIndicesOf ws header_row) hc)
    have hsafeA : cq ∉ (colIndicesOf ws header_row).take (s0 :: tail).length ∨
        rq ≠ header_row := by
      rcases h with h | ⟨h1, _⟩
      · exact Or.inl h
      · exact Or.inr h1
    have hA := assignSystems_frame ws header_row (s0 :: tail)
      (colIndicesOf ws header_row) (colIndices_ge_two ws header_row) rq cq hsafeA
    refine (foldl_inv (fun st : Ws × Nat => st.1.cells rq cq = ws.cells rq cq ∧
      ∀ x, st.1.cells x 1 = ws.cells x 1)
      (multiRowStep (s0 :: tail)
        (assignSystems ws header_row (s0 :: tail) (colIndicesOf ws header_row)).1
        ((asDict s0).map Prod.fst))
      (List.range' (header_row + 1) (ws.maxRow - header_row))
      ((assignSystems ws header_row (s0 :: tail) (colIndicesOf ws header_row)).2, 0)
      ⟨hA.1, hA.2.1⟩ ?_).1
    intro st a ha hP
    have ha1 : header_row + 1 ≤ a := (List.mem_range'_1.mp ha).1
    have hcase : cq ∉ (colIndicesOf ws header_row).take (s0 :: tail).length ∨ rq ≠ a ∨
        multiRowMatches ws ((asDict s0).map Prod.fst) rq = false := by
      rcases h with h | ⟨h1, h2⟩
      · exact Or.inl h
      · rcases h2 with h2 | h2
        · exact Or.inr (Or.inl (by omega))
        · exact Or.inr (Or.inr h2)
    exact multiRowStep_frame (s0 :: tail) _ _ a st ws rq cq
      ((colIndicesOf ws header_row).take (s0 :: tail).length) hA.2.2 hge' hcase hP

/-- C8: neither filler touches a cell outside its write set.
`fill_vertical_template` can change a cell only in column 2, and only on a
row whose column-A label is a truthy string matching a data key
(`vertRowWrites`); any other cell keeps its exact prior value.
`fill_multicolumn_template` can change a cell only in an assigned site
column (`assignedCols`: the sorted site columns truncated to the number of
systems, so with fewer systems than site columns the trailing, unassigned
site columns are also untouched), and apart from the header row only on
rows below the header whose truthy column-A label matches a first-system
key (`multiRowMatches`); in particular a row whose label finds no matching
data key is left entirely untouched by both fillers. -/
theorem fillers_frame (ws : Ws) (data : Assoc) (rq cq : Nat) :
    ((cq ≠ 2 ∨ vertRowWrites ws (normalizeVertData data) rq = false) →
      (fill_vertical_template ws data).1.cells rq cq = ws.cells rq cq) ∧
    (∀ header_row,
      (cq ∉ assignedCols ws data header_row ∨
        (rq ≠ header_row ∧ (rq ≤ header_row ∨
          multiRowMatches ws (multicolumnDataKeys data) rq = false))) →
      (fill_multicolumn_template ws data header_row).1.cells rq cq = ws.cells rq cq) :=
  ⟨vert_fill_frame ws data rq cq,
   fun header_row h => multi_fill_frame ws data header_row rq cq h⟩

/-- Witness for C8: the vertical filler leaves the column-1 label cell
alone; the multi-column filler leaves a cell outside the site columns
alone; and on `wsThree` (two site columns) with a single system, the
trailing unassigned site column of the matched row 2 — cell (2,3), inside
the recorded site columns but outside the assigned ones — is untouched. -/
theorem fillers_frame_witness :
    (fill_vertical_template wsNoName dataNoName).1.cells 2 1 = wsNoName.cells 2 1 ∧
    (fill_multicolumn_template wsNoName dataNoName 1).1.cells 2 3 = wsNoName.cells 2 3 ∧
    (fill_multicolumn_template wsThree dataOne 1).1.cells 2 3 = wsThree.cells 2 3 :=
  ⟨(fillers_frame wsNoName dataNoName 2 1).1 (Or.inl (by decide)),
   (fillers_frame wsNoName dataNoName 2 3).2 1 (Or.inl (by decide)),
   (fillers_frame wsThree dataOne 2 3).2 1 (Or.inl (by decide))⟩

/-! Lemmas for the multi-column assignment step (claim C4). -/

theorem alSet_append {κ β : Type} [BEq κ] :
    ∀ (d : List (κ × β)) (k : κ) (v : β), (∀ p ∈ d, (p.1 == k) = false) →
      alSet d k v = d ++ [(k, v)] := by
  intro d
  induction d with
  | nil => intro k v _; rfl
  | cons a t ih =>
    intro k v h
    obtain ⟨k', v'⟩ := a
    have h' : (k' == k) = false := h (k', v') (List.mem_cons_self _ _)
    rw [show alSet ((k', v') :: t) k v = (k', v') :: alSet t k v from by simp [alSet, h']]
    rw [ih k v (fun p hp => h p (List.mem_cons_of_mem _ hp))]
    rfl

theorem mem_alSet {κ β : Type} [BEq κ] [LawfulBEq κ] :
    ∀ (d : List (κ × β)) (k : κ) (v : β) (p : κ × β),
      p ∈ alSet d k v → p = (k, v) ∨ p ∈ d := by
  intro d
  induction d with
  | nil =>
    intro k v p hp
    rcases List.mem_singleton.mp hp with rfl
    exact Or.inl rfl
  | cons a t ih =>
    intro k v p hp
    obtain ⟨k', v'⟩ := a
    by_cases h : (k' == k) = true
    · have hk : k' = k := eq_of_beq h
      subst hk
      rw [show alSet ((k', v') :: t) k' v = (k', v) :: t from by simp [alSet]] at hp
      rcases List.mem_cons.mp hp with rfl | hm
      · exact Or.inl rfl
      · exact Or.inr (List.mem_cons_of_mem _ hm)
    · have h' : (k' == k) = false := by simpa using h
      rw [show alSet ((k', v') :: t) k v = (k', v') :: alSet t k v from by
        simp [alSet, h']] at hp
      rcases List.mem_cons.mp hp with rfl | hm
      · exact Or.inr (List.mem_cons_self _ _)
      · rcases ih k v p hm with hv | hd
        · exact Or.inl hv
        · exact Or.inr (List.mem_cons_of_mem _ hd)

theorem alContains_of_fst_mem {κ β : Type} [BEq κ] [LawfulBEq κ] :
    ∀ (d : List (κ × β)) (k : κ), k ∈ d.map Prod.fst → alContains d k = true := by
  intro d
  induction d with
  | nil => intro k h; exact absurd h (List.not_mem_nil k)
  | cons a t ih =>
    intro k h
    obtain ⟨k', v'⟩ := a
    rcases List.mem_cons.mp h with rfl | hm
    · simp [alContains, alGet?]
    · by_cases he : (k' == k) = true
      · simp [alContains, alGet?, he]
      · have he' : (k' == k) = false := by simpa using he
        have := ih k hm
        simpa [alContains, alGet?, he'] using this

theorem alSet_map_fst_of_contains {κ β : Type} [BEq κ] :
    ∀ (d : List (κ × β)) (k : κ) (v : β), alContains d k = true →
      (alSet d k v).map Prod.fst = d.map Prod.fst := by
  intro d
  induction d with
  | nil => intro k v h; exact absurd h (by simp [alContains, alGet?])
  | cons a t ih =>
    intro k v h
    obtain ⟨k', v'⟩ := a
    by_cases he : (k' == k) = true
    · simp [alSet, he]
    · have he' : (k' == k) = false := by simpa using he
      have ht : alContains t k = true := by
        simpa [alContains, alGet?, he'] using h
      simp [alSet, he', ih k v ht]

theorem alSet_map_fst_of_not_contains {κ β : Type} [BEq κ] :
    ∀ (d : List (κ × β)) (k : κ) (v : β), alContains d k = false →
      (alSet d k v).map Prod.fst = d.map Prod.fst ++ [k] := by
  intro d
  induction d with
  | nil => intro k v _; rfl
  | cons a t ih =>
    intro k v h
    obtain ⟨k', v'⟩ := a
    by_cases he : (k' == k) = true
    · exact absurd h (by simp [alContains, alGet?, he])
    · have he' : (k' == k) = false := by simpa using he
      have ht : alContains t k = false := by
        simpa [alContains, alGet?, he'] using h
      simp [alSet, he', ih k v ht]

theorem siteColumns_keys_nodup (ws : Ws) (hr : Nat) :
    ((siteColumnsOf ws hr).map Prod.fst).Nodup ∧
    (∀ p ∈ siteColumnsOf ws hr, headerText ws hr p.2 = p.1) := by
  unfold siteColumnsOf
  refine foldl_inv (fun m : List (Str × Nat) =>
      (m.map Prod.fst).Nodup ∧ ∀ p ∈ m, headerText ws hr p.2 = p.1) _
    (siteScanCols ws) [] ⟨List.nodup_nil, by intro p hp; exact absurd hp (List.not_mem_nil p)⟩ ?_
  intro m c _ hP
  by_cases ht : pyTruthy (ws.cells hr c) = true
  · rw [if_pos ht]
    constructor
    · cases hcon : alContains m (headerText ws hr c) with
      | true => rw [alSet_map_fst_of_contains m _ c hcon]; exact hP.1
      | false =>
        rw [alSet_map_fst_of_not_contains m _ c hcon]
        have hnm : headerText ws hr c ∉ m.map Prod.fst := by
          intro hmem
          rw [alContains_of_fst_mem m _ hmem] at hcon
          exact absurd hcon (by decide)
        simp [List.nodup_append, hP.1, hnm]
    · intro p hp
      rcases mem_alSet m _ c p hp with rfl | hm
      · rfl
      · exact hP.2 p hm
  · rw [if_neg ht]
    exact hP

theorem colIndices_nodup (ws : Ws) (hr : Nat) : (colIndicesOf ws hr).Nodup := by
  unfold colIndicesOf
  rw [(List.perm_insertionSort (· ≤ ·) ((siteColumnsOf ws hr).map Prod.snd)).nodup_iff]
  have hkeys := siteColumns_keys_nodup ws hr
  have hpairs : (siteColumnsOf ws hr).Nodup := List.Nodup.of_map _ hkeys.1
  refine List.Nodup.map_on ?_ hpairs
  intro p hp q hq hpq
  have h1 : p.1 = q.1 := by
    rw [← hkeys.2 p hp, ← hkeys.2 q hq, hpq]
  exact Prod.ext h1 hpq

theorem alGet?_cons {κ β : Type} [BEq κ] (k' : κ) (v' : β) (t : List (κ × β)) (k : κ) :
    alGet? ((k', v') :: t) k = if (k' == k) = true then some v' else alGet? t k := rfl

theorem assignedPairs_cons (cols : List Nat) (names : Nat → Str) (k : Nat)
    (s : PyVal) (rest : List PyVal) :
    assignedPairs cols names k (s :: rest) =
      if k < cols.length then
        (PyVal.str (names k), cols.getD k 0) :: assignedPairs cols names (k + 1) rest
      else assignedPairs cols names (k + 1) rest := rfl

theorem assign_fold_spec (hr : Nat) (cols : List Nat) (names : Nat → Str)
    (H2 : ∀ i j, i < cols.length → j < cols.length → i ≠ j → names i ≠ names j) :
    ∀ (sys : List PyVal) (k : Nat) (acc : List (PyVal × Nat) × Ws),
      (∀ j, j < sys.length → k + j < cols.length →
        alGet? (asDict (sys.getD j PyVal.none)) "site_name".toList =
          some (.str (names (k + j)))) →
      (∀ p ∈ acc.1, ∀ i, k ≤ i → i < cols.length → (p.1 == PyVal.str (names i)) = false) →
      ((List.enumFrom k sys).foldl (assignStep hr cols) acc).1 =
        acc.1 ++ assignedPairs cols names k sys := by
  intro sys
  induction sys with
  | nil => intro k acc _ _; exact (List.append_nil acc.1).symm
  | cons s rest ih =>
    intro k acc H1 Hacc
    rw [show List.enumFrom k (s :: rest) = (k, s) :: List.enumFrom (k + 1) rest from rfl,
      List.foldl_cons]
    have H1' : ∀ j, j < rest.length → (k + 1) + j < cols.length →
        alGet? (asDict (rest.getD j PyVal.none)) "site_name".toList =
          some (.str (names ((k + 1) + j))) := by
      intro j hj hjl
      have h := H1 (j + 1) (by simpa using Nat.succ_lt_succ hj) (by omega)
      rw [show k + (j + 1) = (k + 1) + j from by omega] at h
      exact h
    by_cases hk : k < cols.length
    · have hsite : alGetD (asDict s) "site_name".toList (.str (synthName k)) =
          .str (names k) := by
        have h0 := H1 0 (Nat.succ_pos _) (by simpa using hk)
        simp only [List.getD_cons_zero, Nat.add_zero] at h0
        unfold alGetD
        rw [h0]
      have hstep : assignStep hr cols acc (k, s) =
          (acc.1 ++ [(PyVal.str (names k), cols.getD k 0)],
           setCell acc.2 hr (cols.getD k 0) (PyVal.str (names k))) := by
        unfold assignStep
        rw [if_pos hk]
        rw [show ((k, s) : Nat × PyVal).2 = s from rfl, hsite]
        rw [alSet_append acc.1 _ _ (fun p hp => Hacc p hp k (Nat.le_refl k) hk)]
      rw [hstep]
      have Hacc' : ∀ p ∈ acc.1 ++ [(PyVal.str (names k), cols.getD k 0)],
          ∀ i, k + 1 ≤ i → i < cols.length → (p.1 == PyVal.str (names i)) = false := by
        intro p hp i hi1 hi2
        rcases List.mem_append.mp hp with hpa | hps
        · exact Hacc p hpa i (by omega) hi2
        · rcases List.mem_singleton.mp hps with rfl
          show ((names k : Str) == names i) = false
          exact beq_eq_false_iff_ne.mpr (H2 k i hk hi2 (by omega))
      rw [ih (k + 1) _ H1' Hacc']
      rw [assignedPairs_cons, if_pos hk]
      show (acc.1 ++ [(PyVal.str (names k), cols.getD k 0)]) ++
          assignedPairs cols names (k + 1) rest =
        acc.1 ++ ((PyVal.str (names k), cols.getD k 0) ::
          assignedPairs cols names (k + 1) rest)
      rw [List.append_assoc]
      rfl
    · have hstep : assignStep hr cols acc (k, s) = acc := by
        unfold assignStep
        rw [if_neg hk]
      rw [hstep]
      rw [ih (k + 1) acc H1' (fun p hp i hi1 hi2 => Hacc p hp i (by omega) hi2)]
      rw [assignedPairs_cons, if_neg hk]

theorem assignedPairs_lookup_hit (cols : List Nat) (names : Nat → Str)
    (H2 : ∀ i j, i < cols.length → j < cols.length → i ≠ j → names i ≠ names j) :
    ∀ (sys : List PyVal) (k i : Nat), k ≤ i → i < cols.length → i - k < sys.length →
      alGet? (assignedPairs cols names k sys) (PyVal.str (names i)) =
        some (cols.getD i 0) := by
  intro sys
  induction sys with
  | nil => intro k i _ _ h; simp at h
  | cons s rest ih =>
    intro k i hki hil hslen
    have hslen' : i - k < rest.length + 1 := by simpa using hslen
    by_cases hk : k < cols.length
    · rw [assignedPairs_cons, if_pos hk]
      by_cases hik : i = k
      · subst hik
        rw [alGet?_cons, if_pos
          (show ((PyVal.str (names i) : PyVal) == PyVal.str (names i)) = true from
            beq_self_eq_true (names i))]
      · have hne : (names k == names i) = false :=
          beq_eq_false_iff_ne.mpr (H2 k i hk hil (fun h => hik h.symm))
        rw [alGet?_cons, if_neg (by
          show ¬((PyVal.str (names k) == PyVal.str (names i)) = true)
          show ¬((names k == names i) = true)
          rw [hne]
          exact Bool.false_ne_true)]
        have hi1 : k + 1 ≤ i := by omega
        have hi2 : i - (k + 1) < rest.length := by omega
        exact ih (k + 1) i hi1 hil hi2
    · exfalso
      omega

theorem assignedPairs_lookup_miss (cols : List Nat) (names : Nat → Str) :
    ∀ (sys : List PyVal) (k : Nat) (q : PyVal),
      (∀ i, k ≤ i → i < cols.length → i - k < sys.length → (PyVal.str (names i) == q) = false) →
      alGet? (assignedPairs cols names k sys) q = Option.none := by
  intro sys
  induction sys with
  | nil => intro k q _; rfl
  | cons s rest ih =>
    intro k q hq
    by_cases hk : k < cols.length
    · rw [assignedPairs_cons, if_pos hk]
      rw [alGet?_cons, if_neg (by
        rw [hq k (Nat.le_refl k) hk (by simp)]
        exact Bool.false_ne_true)]
      refine ih (k + 1) q (fun i hi1 hi2 hi3 => hq i (by omega) hi2 ?_)
      have : i - k = (i - (k + 1)) + 1 := by omega
      rw [this]
      simpa using Nat.succ_lt_succ hi3
    · rw [assignedPairs_cons, if_neg hk]
      refine ih (k + 1) q (fun i hi1 hi2 hi3 => hq i (by omega) hi2 ?_)
      have : i - k = (i - (k + 1)) + 1 := by omega
      rw [this]
      simpa using Nat.succ_lt_succ hi3

theorem assign_fold_preserve_cell (hr : Nat) (cols : List Nat) (x y : Nat) :
    ∀ (l : List (Nat × PyVal)) (acc : List (PyVal × Nat) × Ws),
      (∀ is ∈ l, is.1 < cols.length → ¬(x = hr ∧ y = cols.getD is.1 0)) →
      (l.foldl (assignStep hr cols) acc).2.cells x y = acc.2.cells x y := by
  intro l acc h
  refine foldl_inv (fun st : List (PyVal × Nat) × Ws => st.2.cells x y = acc.2.cells x y)
    (assignStep hr cols) l acc rfl ?_
  intro st is hmem hP
  unfold assignStep
  by_cases hi : is.1 < cols.length
  · rw [if_pos hi]
    exact (setCell_cells_ne st.2 hr _ _ x y (h is hmem hi)).trans hP
  · rw [if_neg hi]
    exact hP

theorem assign_fold_header (hr : Nat) (cols : List Nat) (names : Nat → Str)
    (Hnodup : cols.Nodup) :
    ∀ (sys : List PyVal) (k : Nat) (acc : List (PyVal × Nat) × Ws),
      (∀ j, j < sys.length → k + j < cols.length →
        alGet? (asDict (sys.getD j PyVal.none)) "site_name".toList =
          some (.str (names (k + j)))) →
      ∀ i, k ≤ i → i < cols.length → i - k < sys.length →
      ((List.enumFrom k sys).foldl (assignStep hr cols) acc).2.cells hr (cols.getD i 0) =
        PyVal.str (names i) := by
  intro sys
  induction sys with
  | nil =>
    intro k acc _ i _ _ h
    simp at h
  | cons s rest ih =>
    intro k acc H1 i hki hil hlen
    have hlen' : i - k < rest.length + 1 := by simpa using hlen
    rw [show List.enumFrom k (s :: rest) = (k, s) :: List.enumFrom (k + 1) rest from rfl,
      List.foldl_cons]
    have H1' : ∀ j, j < rest.length → (k + 1) + j < cols.length →
        alGet? (asDict (rest.getD j PyVal.none)) "site_name".toList =
          some (.str (names ((k + 1) + j))) := by
      intro j hj hjl
      have h := H1 (j + 1) (by simpa using Nat.succ_lt_succ hj) (by omega)
      rw [show k + (j + 1) = (k + 1) + j from by omega] at h
      exact h
    by_cases hik : i = k
    · subst hik
      have hpres := assign_fold_preserve_cell hr cols hr (cols.getD i 0)
        (List.enumFrom (i + 1) rest) (assignStep hr cols acc (i, s)) (by
          intro is hmem hisl hc
          have hge : i + 1 ≤ is.1 := List.le_fst_of_mem_enumFrom hmem
          obtain ⟨-, hcc⟩ := hc
          rw [List.getD_eq_getElem cols 0 hil, List.getD_eq_getElem cols 0 hisl] at hcc
          have := (List.Nodup.getElem_inj_iff Hnodup).mp hcc
          omega)
      rw [hpres]
      have hsite : alGetD (asDict s) "site_name".toList (.str (synthName i)) =
          .str (names i) := by
        have h0 := H1 0 (Nat.succ_pos _) (by simpa using hil)
        simp only [List.getD_cons_zero, Nat.add_zero] at h0
        unfold alGetD
        rw [h0]
      have hstep : assignStep hr cols acc (i, s) =
          (alSet acc.1 (alGetD (asDict s) "site_name".toList (.str (synthName i)))
            (cols.getD i 0),
           setCell acc.2 hr (cols.getD i 0)
             (alGetD (asDict s) "site_name".toList (.str (synthName i)))) := by
        unfold assignStep
        rw [if_pos hil]
      rw [hstep]
      show (setCell acc.2 hr (cols.getD i 0)
        (alGetD (asDict s) "site_name".toList (.str (synthName i)))).cells hr
          (cols.getD i 0) = PyVal.str (names i)
      rw [hsite, setCell_cells_self]
    · have hki' : k + 1 ≤ i := by omega
      exact ih (k + 1) _ H1' i hki' hil (by omega)

/-- Counterexample for C4 as stated: with 3 systems and 2 site columns,
where the excess third system carries the same `site_name` as the first,
the by-name lookup of the fill loop routes the third system into the first
system's column — the cell ends up holding the third system's value "z"
and the fill count is 3, not matched rows × 2 = 2. -/
theorem multicolumn_excess_collision_cex :
    (fill_multicolumn_template wsThree dataDupNames 1).2 = 3 ∧
    (fill_multicolumn_template wsThree dataDupNames 1).1.cells 2 2 = PyVal.str "z".toList :=
  ⟨rfl, rfl⟩

/-- C4 (amended: the positional statements hold provided the assigned
systems carry pairwise-distinct `site_name` strings, and an unassigned
system stays unwritten only while its name — or empty-string default —
differs from every assigned name, since the fill loop looks systems up by
name, not position): the site-column scan covers columns 2 up to the
exclusive bound `min(20, max_column + 1)`; under distinct present names,
the i-th system (0-indexed) is bound to the i-th sorted site column and
that header cell is overwritten with the i-th system's `site_name`
(`System_{i+1}` would be synthesized when absent); any name matching no
assigned system resolves to no column; and on the concrete
3-systems/2-columns instance only the first two systems are filled, with
fill count = matched rows × 2. -/
theorem multicolumn_positional_assignment :
    (∀ (ws : Ws) (hr : Nat) (systems : List PyVal) (names : Nat → Str),
      (∀ j, j < systems.length → j < (colIndicesOf ws hr).length →
        alGet? (asDict (systems.getD j PyVal.none)) "site_name".toList =
          some (.str (names j))) →
      (∀ i j, i < (colIndicesOf ws hr).length → j < (colIndicesOf ws hr).length →
        i ≠ j → names i ≠ names j) →
      (∀ i, i < systems.length → i < (colIndicesOf ws hr).length →
        alGet? (assignSystems ws hr systems (colIndicesOf ws hr)).1 (PyVal.str (names i)) =
          some ((colIndicesOf ws hr).getD i 0) ∧
        (assignSystems ws hr systems (colIndicesOf ws hr)).2.cells hr
          ((colIndicesOf ws hr).getD i 0) = PyVal.str (names i)) ∧
      (∀ q : PyVal, (∀ i, i < (colIndicesOf ws hr).length → i < systems.length →
          (PyVal.str (names i) == q) = false) →
        alGet? (assignSystems ws hr systems (colIndicesOf ws hr)).1 q = Option.none)) ∧
    (∀ (ws : Ws) (hr : Nat) (c : Nat), c ∈ colIndicesOf ws hr →
      2 ≤ c ∧ c ∈ siteScanCols ws) ∧
    (fill_multicolumn_template wsThree dataThree 1).2 = 2 ∧
    (fill_multicolumn_template wsThree dataThree 1).1.cells 2 2 = PyVal.str "x".toList ∧
    (fill_multicolumn_template wsThree dataThree 1).1.cells 2 3 = PyVal.str "y".toList ∧
    (fill_multicolumn_template wsThree dataThree 1).1.cells 1 2 = PyVal.str "A".toList ∧
    (fill_multicolumn_template wsThree dataThree 1).1.cells 1 3 = PyVal.str "B".toList := by
  refine ⟨?_, ?_, rfl, rfl, rfl, rfl, rfl⟩
  · intro ws hr systems names H1 H2
    have H1z : ∀ j, j < systems.length → 0 + j < (colIndicesOf ws hr).length →
        alGet? (asDict (systems.getD j PyVal.none)) "site_name".toList =
          some (.str (names (0 + j))) := by
      intro j hj hjl
      rw [Nat.zero_add]
      exact H1 j hj (by omega)
    have hspec := assign_fold_spec hr (colIndicesOf ws hr) names H2 systems 0 ([], ws)
      H1z (by intro p hp; exact absurd hp (List.not_mem_nil p))
    have hs2c : (assignSystems ws hr systems (colIndicesOf ws hr)).1 =
        assignedPairs (colIndicesOf ws hr) names 0 systems := by
      unfold assignSystems
      rw [show systems.enum = List.enumFrom 0 systems from rfl, hspec]
      rfl
    constructor
    · intro i hi1 hi2
      constructor
      · rw [hs2c]
        exact assignedPairs_lookup_hit (colIndicesOf ws hr) names H2 systems 0 i
          (Nat.zero_le i) hi2 (by simpa using hi1)
      · exact assign_fold_header hr (colIndicesOf ws hr) names (colIndices_nodup ws hr)
          systems 0 ([], ws) H1z i (Nat.zero_le i) hi2 (by simpa using hi1)
    · intro q hq
      rw [hs2c]
      exact assignedPairs_lookup_miss (colIndicesOf ws hr) names systems 0 q
        (fun i _ hi2 hi3 => hq i hi2 (by simpa using hi3))
  · intro ws hr c hc
    refine ⟨colIndices_ge_two ws hr c hc, ?_⟩
    unfold colIndicesOf at hc
    have hmem := (List.perm_insertionSort (· ≤ ·)
      ((siteColumnsOf ws hr).map Prod.snd)).mem_iff.mp hc
    obtain ⟨p, hp, hpc⟩ := List.mem_map.mp hmem
    have := siteColumns_values_mem ws hr p hp
    rwa [hpc] at this

/-- Witness for C4's amended theorem on the 3-systems/2-columns instance:
system 0 ("A") is bound to column 2 with its header rewritten, and the
colliding-free excess name "C" resolves to no column. -/
theorem multicolumn_positional_assignment_witness :
    alGet? (assignSystems wsThree 1 [mkSys "A" "x", mkSys "B" "y", mkSys "C" "z"]
      (colIndicesOf wsThree 1)).1 (PyVal.str "A".toList) = some 2 ∧
    (assignSystems wsThree 1 [mkSys "A" "x", mkSys "B" "y", mkSys "C" "z"]
      (colIndicesOf wsThree 1)).2.cells 1 2 = PyVal.str "A".toList ∧
    alGet? (assignSystems wsThree 1 [mkSys "A" "x", mkSys "B" "y", mkSys "C" "z"]
      (colIndicesOf wsThree 1)).1 (PyVal.str "C".toList) = Option.none := by
  have h := (multicolumn_positional_assignment).1 wsThree 1
    [mkSys "A" "x", mkSys "B" "y", mkSys "C" "z"]
    (fun i => if i = 0 then "A".toList else if i = 1 then "B".toList else "C".toList)
    (by intro j hj1 hj2
        have hj2' : j < 2 := by simpa using hj2
        interval_cases j <;> rfl)
    (by intro i j hi hj hne
        have hi' : i < 2 := by simpa using hi
        have hj' : j < 2 := by simpa using hj
        interval_cases i <;> interval_cases j <;> first | exact absurd rfl hne | decide)
  refine ⟨(h.1 0 (by decide) (by decide)).1, (h.1 0 (by decide) (by decide)).2, ?_⟩
  refine h.2 (PyVal.str "C".toList) ?_
  intro i hi1 _
  have hi' : i < 2 := by simpa using hi1
  interval_cases i <;> decide
